import Mathlib

/-!
# ion: neighbour registry, room broadcast and SFU signalling

A shallow embedding of three source files of the repository:

* `pkg/ion/node.go`       (neighbour registry, `Node.handleNeighborNodes`)
* `pkg/node/biz/room.go`  (`Room.addPeer`, `Room.delPeer`, `Room.sendMessage`, ...)
* `pkg/node/sfu/server.go` (`sfuServer.postISLBEvent`, `sfuServer.Signal`)

Go maps are association lists whose keys are pairwise distinct; a `range` loop
visits the entries in list order.  Go leaves the iteration order unspecified, and
every theorem below quantifies over all lists, hence over every order.  Calls on
collaborators that live outside these files (peer sinks, the gRPC stream, the
media engine, the ISLB client) are recorded in traces, and their results are
supplied by parameters.  The neighbour registry stores pointers; it is given
twice, on record values for one call of the handler (`ion.Node`) and on
addresses with an explicit memory for calls in sequence (`ion.NodePtrs`).
Operations run one at a time: locks are not modelled,
and the three negotiation callbacks that `Signal` assigns to the media-engine
peer are recorded as assigned, while their later firing by the engine is outside
the model.  Of the logging only `log.Errorf` is recorded.
-/

set_option autoImplicit false

/-! ## Go maps with string keys -/

/-- A Go `map[string]V`: the entries in iteration order. -/
abbrev GoMap (V : Type) := List (String × V)

namespace GoMap

variable {V : Type}

/-- The keys in iteration order. -/
def keys (m : GoMap V) : List String := m.map Prod.fst

/-- Map invariant: no key occurs twice. -/
def WF (m : GoMap V) : Prop := (keys m).Nodup

/-- Lookup `m[k]`, with `none` for "not found". -/
def get? : GoMap V → String → Option V
  | [], _ => none
  | (k', v) :: t, k => if k' = k then some v else get? t k

/-- Assignment `m[k] = v`: overwrites the entry of `k`, or adds one. -/
def set : GoMap V → String → V → GoMap V
  | [], k, v => [(k, v)]
  | (k', v') :: t, k, v => if k' = k then (k, v) :: t else (k', v') :: set t k v

/-- Builtin `delete(m, k)`. -/
def delete (m : GoMap V) (k : String) : GoMap V := m.filter (fun e => decide (e.1 ≠ k))

/-- Builtin `len(m)`. -/
def len (m : GoMap V) : Nat := m.length

end GoMap

/-! ## `pkg/ion/node.go` -/

namespace discovery

/-- Transport description of a node (`discovery.RPC`). -/
structure RPC where
  Protocol : String
  Addr : String
deriving DecidableEq, Repr

/-- Record of a cluster node (`discovery.Node`). -/
structure Node where
  Service : String
  NID : String
  RPC : RPC
deriving DecidableEq, Repr

/-- Notification kind (`discovery.NodeState`, an integer type): the two named
values and every other value. -/
inductive NodeState where
  | NodeUp
  | NodeDown
  | other (v : Nat)
deriving DecidableEq, Repr

end discovery

namespace ion

/-- The fields of `Node` that the registry uses: the id and the neighbour map. -/
structure Node where
  NID : String
  neighborNodes : GoMap discovery.Node
deriving DecidableEq, Repr

/-- Constructor `NewNode`: an empty registry. -/
def NewNode (nid : String) : Node :=
  { NID := nid, neighborNodes := [] }

/-- Accessor `GetNeighborNodes`. -/
def Node.GetNeighborNodes (n : Node) : GoMap discovery.Node := n.neighborNodes

/-- Handler `handleNeighborNodes`: an up notification stores the node unless
its id is found, a down notification deletes the id, anything else is ignored. -/
def Node.handleNeighborNodes (n : Node) (state : discovery.NodeState)
    (node : discovery.Node) : Node :=
  let id := node.NID
  if state = discovery.NodeState.NodeUp then
    match n.neighborNodes.get? id with
    | some _ => n
    | none => { n with neighborNodes := n.neighborNodes.set id node }
  else if state = discovery.NodeState.NodeDown then
    { n with neighborNodes := n.neighborNodes.delete id }
  else n

/-- Address of a variable of type `discovery.Node`. -/
abbrev Ptr := Nat

/-- The memory: the `discovery.Node` value held at every address. -/
abbrev Memory := Ptr → discovery.Node

/-- The struct `Node` with the registry as the source declares it,
`map[string]*discovery.Node`: the stored records are addresses. -/
structure NodePtrs where
  NID : String
  neighborNodes : GoMap Ptr
deriving DecidableEq, Repr

/-- Constructor `NewNode`, for the registry of addresses. -/
def NewNodePtrs (nid : String) : NodePtrs :=
  { NID := nid, neighborNodes := [] }

/-- Handler `handleNeighborNodes` on addresses: the id is read through the
pointer `node`, and an up notification stores the pointer itself. -/
def NodePtrs.handleNeighborNodes (mem : Memory) (n : NodePtrs) (state : discovery.NodeState)
    (node : Ptr) : NodePtrs :=
  let id := (mem node).NID
  if state = discovery.NodeState.NodeUp then
    match n.neighborNodes.get? id with
    | some _ => n
    | none => { n with neighborNodes := n.neighborNodes.set id node }
  else if state = discovery.NodeState.NodeDown then
    { n with neighborNodes := n.neighborNodes.delete id }
  else n

/-- What a reader of the registry sees in the memory `mem`: every id with the
record that its pointer leads to. -/
def NodePtrs.records (mem : Memory) (n : NodePtrs) : GoMap discovery.Node :=
  n.neighborNodes.map (fun e => (e.1, mem e.2))

/-- The registry of addresses seen as a registry of values in the memory `mem`. -/
def NodePtrs.view (mem : Memory) (n : NodePtrs) : Node :=
  { NID := n.NID, neighborNodes := n.records mem }

/-- The `range` loop of `Node.Watch` over the nodes of the discovery response.
The loop has one variable `node`, at the address `v`: every iteration assigns
the next element to it and hands its address `&node` to the handler. -/
def NodePtrs.watchLoop (v : Ptr) : Memory → NodePtrs → List discovery.Node → Memory × NodePtrs
  | mem, n, [] => (mem, n)
  | mem, n, node :: rest =>
    let mem1 : Memory := Function.update mem v node
    NodePtrs.watchLoop v mem1 (n.handleNeighborNodes mem1 discovery.NodeState.NodeUp v) rest

/-- Method `Node.Watch` when `n.nd.Get` succeeds with the nodes `nodes`: the
memory and the registry when the loop is done and the handler is registered
with the discovery client. -/
def NodePtrs.Watch (v : Ptr) (mem : Memory) (n : NodePtrs) (nodes : List discovery.Node) :
    Memory × NodePtrs :=
  NodePtrs.watchLoop v mem n nodes

end ion

/-- Raw bytes (`[]byte`); the nil slice is the empty list. -/
abbrev Bytes := List Nat

/-- One `log.Errorf` call: the format string and its arguments.  Informational
and debug logging is not recorded. -/
structure LogLine where
  format : String
  args : List String
deriving DecidableEq, Repr

/-! ## Protocol messages of `pkg/grpc/ion` -/

namespace ion

/-- Modelled from the spec: the stream descriptor `ion.Stream` of the generated
package `pkg/grpc/ion`, which is not among the sources; an opaque descriptor
with an identifier. -/
structure Stream where
  Id : String
deriving DecidableEq, Repr

/-- Modelled from the spec: the presence states of `ion.PeerEvent`. -/
inductive PeerEvent_State where
  | JOIN
  | LEAVE
deriving DecidableEq, Repr

/-- Modelled from the spec: the message `ion.Peer` carried by a peer event. -/
structure Peer where
  Sid : String
  Uid : String
  Info : Bytes
deriving DecidableEq, Repr

/-- Modelled from the spec: the message `ion.PeerEvent`. -/
structure PeerEvent where
  State : PeerEvent_State
  Peer : Peer
deriving DecidableEq, Repr

/-- Modelled from the spec: the availability states of `ion.StreamEvent`. -/
inductive StreamEvent_State where
  | ADD
  | REMOVE
deriving DecidableEq, Repr

/-- Modelled from the spec: the message `ion.StreamEvent`. -/
structure StreamEvent where
  Nid : String
  Sid : String
  Uid : String
  State : StreamEvent_State
  Streams : List Stream
deriving DecidableEq, Repr

/-- Modelled from the spec: the message `ion.Message`. -/
structure Message where
  From : String
  To : String
  Data : Bytes
deriving DecidableEq, Repr

end ion

/-! ## `pkg/node/biz/room.go` -/

namespace biz

/-- Modelled from the spec: the struct `Peer` of `peer.go`, which is not among
the sources; the fields that `room.go` reads.  The outbound sink is the target
of the calls recorded as `Effect`s. -/
structure Peer where
  uid : String
  info : Bytes
  lastStreamEvent : Option ion.StreamEvent
deriving DecidableEq, Repr

/-- Modelled from the spec: the results of the three sink methods of `Peer`
(`sendPeerEvent`, `sendStreamEvent`, `sendMessage`), which are not among the
sources: `some msg` is a returned error. -/
structure Sinks where
  sendPeerEvent : Peer → ion.PeerEvent → Option String
  sendStreamEvent : Peer → ion.StreamEvent → Option String
  sendMessage : Peer → ion.Message → Option String

/-- What a room operation does to the outside: calls on peer sinks and error
log lines, in program order. -/
inductive Effect where
  | sendPeerEvent (p : Peer) (event : ion.PeerEvent)
  | sendStreamEvent (p : Peer) (event : ion.StreamEvent)
  | sendMessage (p : Peer) (msg : ion.Message)
  | logErrorf (line : LogLine)
deriving DecidableEq, Repr

/-- The struct `Room`. -/
structure Room where
  sid : String
  sfunid : String
  peers : GoMap Peer
deriving DecidableEq, Repr

/-- Constructor `newRoom`. -/
def newRoom (sid : String) (sfunid : String) : Room :=
  { sid := sid, sfunid := sfunid, peers := [] }

/-- Accessor `SID`. -/
def Room.SID (r : Room) : String := r.sid

/-- Accessor `getPeer`. -/
def Room.getPeer (r : Room) (uid : String) : Option Peer := r.peers.get? uid

/-- Accessor `getPeers`. -/
def Room.getPeers (r : Room) : GoMap Peer := r.peers

/-- Accessor `count`. -/
def Room.count (r : Room) : Nat := r.peers.len

/-- The error branch after a sink call: one log line when the call failed. -/
def logSendError (format : String) (p : Peer) : Option String → List Effect
  | some err => [Effect.logErrorf { format := format, args := [p.uid, err] }]
  | none => []

/-- The `range` loop of `Room.sendPeerEvent`. -/
def sendPeerEventLoop (sk : Sinks) (event : ion.PeerEvent) : GoMap Peer → List Effect
  | [] => []
  | (_, p) :: rest =>
    Effect.sendPeerEvent p event ::
      (logSendError "send data to peer(%s) error: %v" p (sk.sendPeerEvent p event)
        ++ sendPeerEventLoop sk event rest)

/-- Method `Room.sendPeerEvent`. -/
def Room.sendPeerEvent (sk : Sinks) (r : Room) (event : ion.PeerEvent) : List Effect :=
  sendPeerEventLoop sk event r.getPeers

/-- The `range` loop of `Room.sendStreamEvent`. -/
def sendStreamEventLoop (sk : Sinks) (event : ion.StreamEvent) : GoMap Peer → List Effect
  | [] => []
  | (_, p) :: rest =>
    Effect.sendStreamEvent p event ::
      (logSendError "send data to peer(%s) error: %v" p (sk.sendStreamEvent p event)
        ++ sendStreamEventLoop sk event rest)

/-- Method `Room.sendStreamEvent`. -/
def Room.sendStreamEvent (sk : Sinks) (r : Room) (event : ion.StreamEvent) : List Effect :=
  sendStreamEventLoop sk event r.getPeers

/-- The second loop of `Room.addPeer`: the newcomer `p` is told about each
peer of the room, and receives its last stream event when there is one.  The
results of these direct sends are discarded by the source. -/
def addPeerLoop (sid : String) (p : Peer) : GoMap Peer → List Effect
  | [] => []
  | (_, peer) :: rest =>
    let event : ion.PeerEvent :=
      { State := ion.PeerEvent_State.JOIN,
        Peer := { Sid := sid, Uid := peer.uid, Info := peer.info } }
    Effect.sendPeerEvent p event ::
      ((match peer.lastStreamEvent with
        | some ev => [Effect.sendStreamEvent p ev]
        | none => []) ++ addPeerLoop sid p rest)

/-- Method `Room.addPeer`: the room afterwards and the effects. -/
def Room.addPeer (sk : Sinks) (r : Room) (p : Peer) : Room × List Effect :=
  let event : ion.PeerEvent :=
    { State := ion.PeerEvent_State.JOIN,
      Peer := { Sid := r.sid, Uid := p.uid, Info := p.info } }
  let t1 := r.sendPeerEvent sk event
  let t2 := addPeerLoop r.sid p r.getPeers
  ({ r with peers := r.peers.set p.uid p }, t1 ++ t2)

/-- Method `Room.delPeer`: the room afterwards, the returned count and the
effects. -/
def Room.delPeer (sk : Sinks) (r : Room) (uid : String) : Room × Nat × List Effect :=
  let r1 : Room := { r with peers := r.peers.delete uid }
  let event : ion.PeerEvent :=
    { State := ion.PeerEvent_State.LEAVE,
      Peer := { Sid := r1.sid, Uid := uid, Info := [] } }
  (r1, r1.peers.len, r1.sendPeerEvent sk event)

/-- The `range` loop of `Room.sendMessage`. -/
def sendMessageLoop (sk : Sinks) (sid : String) (msg : ion.Message) : GoMap Peer → List Effect
  | [] => []
  | (id, p) :: rest =>
    let to_ := msg.To
    if id = to_ ∨ to_ = "all" ∨ to_ = sid then
      Effect.sendMessage p msg ::
        (logSendError "send msg to peer(%s) error: %v" p (sk.sendMessage p msg)
          ++ sendMessageLoop sk sid msg rest)
    else sendMessageLoop sk sid msg rest

/-- Method `Room.sendMessage`. -/
def Room.sendMessage (sk : Sinks) (r : Room) (msg : ion.Message) : List Effect :=
  sendMessageLoop sk r.sid msg r.getPeers

/-- Room invariant: the keys of the peer map are distinct and every peer is
stored under its own uid (the only insertion is `r.peers[p.uid] = p`). -/
def Room.WF (r : Room) : Prop :=
  r.peers.WF ∧ ∀ e ∈ r.peers, e.1 = e.2.uid

/-- The peer `q` is a member of the room. -/
def Room.has (r : Room) (q : Peer) : Prop := ∃ e ∈ r.peers, e.2 = q

/-- How many times an operation called `q.sendPeerEvent(event)`. -/
def peerEventCalls (t : List Effect) (q : Peer) (event : ion.PeerEvent) : Nat :=
  t.count (Effect.sendPeerEvent q event)

/-- How many times an operation called `q.sendStreamEvent(event)`. -/
def streamEventCalls (t : List Effect) (q : Peer) (event : ion.StreamEvent) : Nat :=
  t.count (Effect.sendStreamEvent q event)

/-- How many times an operation called `q.sendMessage(msg)`. -/
def messageCalls (t : List Effect) (q : Peer) (msg : ion.Message) : Nat :=
  t.count (Effect.sendMessage q msg)

/-- The sink calls of a trace, error log lines left out. -/
def sinkCalls (t : List Effect) : List Effect :=
  t.filter (fun e => match e with
    | Effect.logErrorf _ => false
    | _ => true)

/-- The JOIN event that announces `q` in the room `sid`. -/
def joinEvent (sid : String) (q : Peer) : ion.PeerEvent :=
  { State := ion.PeerEvent_State.JOIN, Peer := { Sid := sid, Uid := q.uid, Info := q.info } }

/-- The LEAVE event for `uid` in the room `sid`. -/
def leaveEvent (sid : String) (uid : String) : ion.PeerEvent :=
  { State := ion.PeerEvent_State.LEAVE, Peer := { Sid := sid, Uid := uid, Info := [] } }

end biz

/-! ## Collaborators of `pkg/node/sfu/server.go` -/

namespace webrtc

/-- Kind of a session description (`webrtc.SDPType`); `unknown` is the zero value. -/
inductive SDPType where
  | unknown
  | offer
  | pranswer
  | answer
  | rollback
deriving DecidableEq, Repr

/-- Session description (`webrtc.SessionDescription`). -/
structure SessionDescription where
  Typ : SDPType
  SDP : String
deriving DecidableEq, Repr

/-- Connectivity candidate (`webrtc.ICECandidateInit`). -/
structure ICECandidateInit where
  Candidate : String
  SDPMid : Option String
  SDPMLineIndex : Option Nat
  UsernameFragment : Option String
deriving DecidableEq, Repr

end webrtc

namespace codes

/-- Status codes of gRPC (`codes.Code`) that the handler tells apart. -/
inductive Code where
  | Canceled
  | Unknown
  | Internal
  | other (n : Nat)
deriving DecidableEq, Repr

/-- Printed form of a code. -/
def Code.String : Code → String
  | Code.Canceled => "Canceled"
  | Code.Unknown => "Unknown"
  | Code.Internal => "Internal"
  | Code.other n => "Code(" ++ toString n ++ ")"

end codes

namespace pb

/-- Candidate frame (`pb.Trickle`). -/
structure Trickle where
  Init : String
  Target : Int
deriving DecidableEq, Repr

/-- Payload of an inbound frame; `none` stands for a payload of no listed kind. -/
inductive SignalRequest_Payload where
  | Join (Sid : String) (Uid : String) (Description : Bytes)
  | Description (Description : Bytes)
  | Trickle (Trickle : Trickle)
  | none
deriving DecidableEq, Repr

/-- Inbound frame (`pb.SignalRequest`). -/
structure SignalRequest where
  Id : String
  Payload : SignalRequest_Payload
deriving DecidableEq, Repr

/-- Payload of an outbound frame. -/
inductive SignalReply_Payload where
  | Error (Error : String)
  | Join (Description : Bytes)
  | Description (Description : Bytes)
  | Trickle (Trickle : Trickle)
  | IceConnectionState (IceConnectionState : String)
deriving DecidableEq, Repr

/-- Outbound frame (`pb.SignalReply`). -/
structure SignalReply where
  Id : String
  Payload : SignalReply_Payload
deriving DecidableEq, Repr

/-- What `stream.Recv` returns when it fails: end of stream, or an error seen
through `status.FromError` as a code and a message. -/
inductive RecvError where
  | EOF
  | status (code : codes.Code) (message : String)
deriving DecidableEq, Repr

end pb

namespace isfu

/-- Errors of the media engine: the three sentinel values that the handler
compares against, and any other error. -/
inductive Err where
  | ErrTransportExists
  | ErrOfferIgnored
  | ErrNoTransportEstablished
  | other (msg : String)
deriving DecidableEq, Repr

/-- One operation invoked on the media-engine peer.  `setCallbacks` is the
assignment of `OnIceCandidate`, `OnOffer` and `OnICEConnectionStateChange`. -/
inductive Call where
  | setCallbacks
  | Join (sid : String) (uid : String)
  | Answer (offer : webrtc.SessionDescription)
  | SetRemoteDescription (sdp : webrtc.SessionDescription)
  | Trickle (candidate : webrtc.ICECandidateInit) (target : Int)
  | Close
deriving DecidableEq, Repr

/-- The media-engine peer (`isfu.Peer`), an external object: its state is a
value of `E`, every operation returns the next state with its results. -/
structure Peer (E : Type) where
  NewPeer : E
  Join : E → String → String → E × Option Err
  Answer : E → webrtc.SessionDescription → E × Option webrtc.SessionDescription × Option Err
  SetRemoteDescription : E → webrtc.SessionDescription → E × Option Err
  Trickle : E → webrtc.ICECandidateInit → Int → E × Option Err
  Close : E → E
  Session : E → Option String
  ID : E → String
  Error : Err → String

end isfu

namespace islb

/-- Client handle built by `islb.NewISLBClient(nrpc.NewClient(s.nc, node.NID))`:
the node it is bound to. -/
structure ISLBClient where
  nid : String
deriving DecidableEq, Repr

/-- Modelled from the spec: the message `islb.ISLBEvent` of the generated package
`pkg/grpc/islb`, which is not among the sources; the stream payload. -/
inductive ISLBEvent where
  | Stream (Stream : ion.StreamEvent)
deriving DecidableEq, Repr

end islb

/-! ## `pkg/node/sfu/server.go` -/

namespace sfu

/-- The part of the cluster that `postISLBEvent` talks to: the constant
`proto.ServiceISLB` and the result of the RPC `PostISLBEvent`. -/
structure Cluster where
  ServiceISLB : String
  PostISLBEvent : islb.ISLBClient → islb.ISLBEvent → Option String

/-- What `postISLBEvent` does to the outside. -/
inductive ISLBEffect where
  | PostISLBEvent (cli : islb.ISLBClient) (event : islb.ISLBEvent)
  | logErrorf (line : LogLine)
deriving DecidableEq, Repr

/-- The struct `sfuServer`: the cached client and the node `sn`, whose
registry and id are those of the embedded `ion.Node`. -/
structure sfuServer where
  islbcli : Option islb.ISLBClient
  sn : ion.Node
deriving DecidableEq, Repr

/-- Constructor `newSFUServer`. -/
def newSFUServer (sn : ion.Node) : sfuServer :=
  { islbcli := none, sn := sn }

/-- The `range` loop of `postISLBEvent`: a client for the first node met whose
service is `ServiceISLB`. -/
def resolveISLB (ServiceISLB : String) : GoMap discovery.Node → Option islb.ISLBClient
  | [] => none
  | (_, node) :: rest =>
    if node.Service = ServiceISLB then some { nid := node.NID }
    else resolveISLB ServiceISLB rest

/-- Method `sfuServer.postISLBEvent`. -/
def sfuServer.postISLBEvent (c : Cluster) (s : sfuServer) (event : islb.ISLBEvent) :
    sfuServer × List ISLBEffect :=
  let s1 : sfuServer :=
    match s.islbcli with
    | none =>
      match resolveISLB c.ServiceISLB s.sn.GetNeighborNodes with
      | some cli => { s with islbcli := some cli }
      | none => s
    | some _ => s
  match s1.islbcli with
  | some cli =>
    (s1, ISLBEffect.PostISLBEvent cli event ::
      (match c.PostISLBEvent cli event with
       | some err => [ISLBEffect.logErrorf { format := "PostISLBEvent err %v", args := [err] }]
       | none => []))
  | none => (s1, [])

/-- Everything outside the handler that `Signal` depends on. -/
structure Env (E : Type) where
  peer : isfu.Peer E
  cluster : Cluster
  unmarshalSDP : Bytes → webrtc.SessionDescription × Option String
  marshalSDP : Option webrtc.SessionDescription → Bytes × Option String
  unmarshalCandidate : String → webrtc.ICECandidateInit × Option String
  ParseSDP : String → List ion.Stream × Option String
  Send : List pb.SignalReply → pb.SignalReply → Option String

/-- The value returned by `Signal`, or the run-time failure that ends it. -/
inductive Result where
  | nil
  | status (code : codes.Code) (format : String) (args : List String)
  | recvError (err : pb.RecvError)
  | nilDereference
deriving DecidableEq, Repr

/-- The variables of one run of `Signal`, with the traces of what it did. -/
structure SignalState (E : Type) where
  peer : E
  streams : List ion.Stream
  s : sfuServer
  sent : List pb.SignalReply
  calls : List (isfu.Call × Option isfu.Err)
  posted : List islb.ISLBEvent
  islbOut : List ISLBEffect
  logs : List LogLine

/-- Where the read loop goes after a frame: the next `Recv`, or a return. -/
inductive Flow (E : Type) where
  | next (st : SignalState E)
  | ret (st : SignalState E) (r : Result)

variable {E : Type}

/-- Sequencing: go on with `k` unless the handler has returned. -/
def Flow.andThen (f : Flow E) (k : SignalState E → Flow E) : Flow E :=
  match f with
  | Flow.next st => k st
  | Flow.ret st r => Flow.ret st r

/-- One `log.Errorf`. -/
def SignalState.logf (st : SignalState E) (format : String) (args : List String) :
    SignalState E :=
  { st with logs := st.logs ++ [{ format := format, args := args }] }

/-- Note an operation of the media engine and the error it returned. -/
def SignalState.record (st : SignalState E) (c : isfu.Call) (err : Option isfu.Err) :
    SignalState E :=
  { st with calls := st.calls ++ [(c, err)] }

/-- One `stream.Send`. -/
def SignalState.Send (env : Env E) (st : SignalState E) (r : pb.SignalReply) :
    SignalState E × Option String :=
  ({ st with sent := st.sent ++ [r] }, env.Send st.sent r)

/-- One call of `s.postISLBEvent`. -/
def SignalState.post (env : Env E) (st : SignalState E) (event : islb.ISLBEvent) :
    SignalState E :=
  let out := st.s.postISLBEvent env.cluster event
  { st with s := out.1, posted := st.posted ++ [event], islbOut := st.islbOut ++ out.2 }

/-- The recurring block that sends an Error frame: a failed send is logged and
ends the RPC with status Internal, otherwise the handler goes on. -/
def sendErrorFrame (env : Env E) (st : SignalState E) (text : String) : Flow E :=
  match st.Send env { Id := "", Payload := pb.SignalReply_Payload.Error text } with
  | (st1, some se) =>
    Flow.ret (st1.logf "grpc send error: %v" [se]) (Result.status codes.Code.Internal se [])
  | (st1, none) => Flow.next st1

end sfu

namespace sfu

variable {E : Type}

/-- The `Join` case of the read loop. -/
def onJoin (env : Env E) (st : SignalState E) (req : pb.SignalRequest)
    (Sid : String) (Uid : String) (Description : Bytes) : Flow E :=
  let parsed := env.unmarshalSDP Description
  let offer := parsed.1
  (match parsed.2 with
   | some e => sendErrorFrame env st ("join sdp unmarshal error: " ++ e)
   | none => Flow.next st).andThen fun st1 =>
  let st2 := st1.record isfu.Call.setCallbacks none
  let joined := env.peer.Join st2.peer Sid Uid
  let st3 := ({ st2 with peer := joined.1 }).record (isfu.Call.Join Sid Uid) joined.2
  (match joined.2 with
   | some err =>
     if err = isfu.Err.ErrTransportExists ∨ err = isfu.Err.ErrOfferIgnored then
       sendErrorFrame env st3 ("join error: " ++ env.peer.Error err)
     else Flow.ret st3 (Result.status codes.Code.Unknown (env.peer.Error err) [])
   | none => Flow.next st3).andThen fun st4 =>
  let answered := env.peer.Answer st4.peer offer
  let st5 := ({ st4 with peer := answered.1 }).record (isfu.Call.Answer offer) answered.2.2
  match answered.2.2 with
  | some err =>
    Flow.ret st5 (Result.status codes.Code.Internal ("answer error: " ++ env.peer.Error err) [])
  | none =>
    let marshalled := env.marshalSDP answered.2.1
    match marshalled.2 with
    | some e => Flow.ret st5 (Result.status codes.Code.Internal ("sdp marshal error: " ++ e) [])
    | none =>
      match st5.Send env { Id := req.Id, Payload := pb.SignalReply_Payload.Join marshalled.1 } with
      | (st6, some se) =>
        Flow.ret (st6.logf "error sending join response, error -> %v" [se])
          (Result.status codes.Code.Internal "join error %s" [se])
      | (st6, none) => Flow.next st6

/-- The end of the offer branch: the streams announced by the offer are
parsed; when there is at least one, an ADD event is handed to `postISLBEvent`
and the streams are remembered.  Reading the id of a nil session stops the
handler. -/
def announceStreams (env : Env E) (st : SignalState E) (sdp : webrtc.SessionDescription) :
    Flow E :=
  let parsed := env.ParseSDP sdp.SDP
  let newStreams := parsed.1
  let st1 := match parsed.2 with
    | some e => st.logf "util.ParseSDP error: %v" [e]
    | none => st
  if newStreams.length > 0 then
    match env.peer.Session st1.peer with
    | none => Flow.ret st1 Result.nilDereference
    | some sessionID =>
      let st2 := st1.post env (islb.ISLBEvent.Stream
        { Nid := st1.s.sn.NID, Sid := sessionID, Uid := env.peer.ID st1.peer,
          Streams := newStreams, State := ion.StreamEvent_State.ADD })
      Flow.next { st2 with streams := newStreams }
  else Flow.next st1

/-- The `Description` case of the read loop. -/
def onDescription (env : Env E) (st : SignalState E) (req : pb.SignalRequest)
    (Description : Bytes) : Flow E :=
  let parsed := env.unmarshalSDP Description
  let sdp := parsed.1
  (match parsed.2 with
   | some e => sendErrorFrame env st ("negotiate sdp unmarshal error: " ++ e)
   | none => Flow.next st).andThen fun st1 =>
  if sdp.Typ = webrtc.SDPType.offer then
    let answered := env.peer.Answer st1.peer sdp
    let st2 := ({ st1 with peer := answered.1 }).record (isfu.Call.Answer sdp) answered.2.2
    match answered.2.2 with
    | some err =>
      if err = isfu.Err.ErrNoTransportEstablished ∨ err = isfu.Err.ErrOfferIgnored then
        sendErrorFrame env st2 ("negotiate answer error: " ++ env.peer.Error err)
      else
        Flow.ret st2
          (Result.status codes.Code.Unknown ("negotiate error: " ++ env.peer.Error err) [])
    | none =>
      let marshalled := env.marshalSDP answered.2.1
      (match marshalled.2 with
       | some e => sendErrorFrame env st2 ("sdp marshal error: " ++ e)
       | none => Flow.next st2).andThen fun st3 =>
      match st3.Send env
          { Id := req.Id, Payload := pb.SignalReply_Payload.Description marshalled.1 } with
      | (st4, some se) =>
        Flow.ret st4 (Result.status codes.Code.Internal ("negotiate error: " ++ se) [])
      | (st4, none) => announceStreams env st4 sdp
  else if sdp.Typ = webrtc.SDPType.answer then
    let applied := env.peer.SetRemoteDescription st1.peer sdp
    let st2 := ({ st1 with peer := applied.1 }).record
      (isfu.Call.SetRemoteDescription sdp) applied.2
    match applied.2 with
    | some err =>
      if err = isfu.Err.ErrNoTransportEstablished then
        sendErrorFrame env st2 ("set remote description error: " ++ env.peer.Error err)
      else Flow.ret st2 (Result.status codes.Code.Unknown (env.peer.Error err) [])
    | none => Flow.next st2
  else Flow.next st1

/-- The `Trickle` case of the read loop. -/
def onTrickle (env : Env E) (st : SignalState E) (t : pb.Trickle) : Flow E :=
  let parsed := env.unmarshalCandidate t.Init
  let candidate := parsed.1
  match parsed.2 with
  | some e =>
    sendErrorFrame env (st.logf "error parsing ice candidate, error -> %v" [e])
      ("unmarshal ice candidate error:  " ++ e)
  | none =>
    let trickled := env.peer.Trickle st.peer candidate t.Target
    let st1 := ({ st with peer := trickled.1 }).record
      (isfu.Call.Trickle candidate t.Target) trickled.2
    match trickled.2 with
    | some err =>
      if err = isfu.Err.ErrNoTransportEstablished then
        sendErrorFrame env (st1.logf "peer hasn\x27t joined, error -> %v" [env.peer.Error err])
          ("trickle error:  " ++ env.peer.Error err)
      else
        Flow.ret st1
          (Result.status codes.Code.Unknown ("negotiate error: " ++ env.peer.Error err) [])
    | none => Flow.next st1

/-- The body of the read loop for one received frame (the type switch). -/
def handleFrame (env : Env E) (st : SignalState E) (req : pb.SignalRequest) : Flow E :=
  match req.Payload with
  | pb.SignalRequest_Payload.Join Sid Uid Description => onJoin env st req Sid Uid Description
  | pb.SignalRequest_Payload.Description Description => onDescription env st req Description
  | pb.SignalRequest_Payload.Trickle t => onTrickle env st t
  | pb.SignalRequest_Payload.none => Flow.next st

/-- The read loop over the frames that `Recv` delivers, up to the first return. -/
def readAll (env : Env E) : SignalState E → List pb.SignalRequest → Flow E
  | st, [] => Flow.next st
  | st, req :: rest => (handleFrame env st req).andThen fun st1 => readAll env st1 rest

/-- The deferred function of `Signal`: a REMOVE event when the peer has a
session. -/
def deferred (env : Env E) (st : SignalState E) : SignalState E :=
  match env.peer.Session st.peer with
  | some sessionID =>
    st.post env (islb.ISLBEvent.Stream
      { Nid := st.s.sn.NID, Sid := sessionID, Uid := env.peer.ID st.peer,
        State := ion.StreamEvent_State.REMOVE, Streams := st.streams })
  | none => st

/-- The state in which `Signal` starts. -/
def initial (env : Env E) (s : sfuServer) : SignalState E :=
  { peer := env.peer.NewPeer, streams := [], s := s, sent := [], calls := [],
    posted := [], islbOut := [], logs := [] }

/-- The branch of the read loop taken when `Recv` fails with `closing`. -/
def onRecvError (env : Env E) (st : SignalState E) (closing : pb.RecvError) :
    SignalState E × Result :=
  let st1 := ({ st with peer := env.peer.Close st.peer }).record isfu.Call.Close none
  match closing with
  | pb.RecvError.EOF => (st1, Result.nil)
  | pb.RecvError.status code message =>
    if code = codes.Code.Canceled then (st1, Result.nil)
    else
      (st1.logf "%v" [message, "signal error", "code", code.String],
        Result.recvError closing)

/-- The `for` loop of `Signal` on a stream that delivers `frames` and then fails
with `closing`: the state and the result at the `return`. -/
def signalBody (env : Env E) (s : sfuServer) (frames : List pb.SignalRequest)
    (closing : pb.RecvError) : SignalState E × Result :=
  match readAll env (initial env s) frames with
  | Flow.ret st r => (st, r)
  | Flow.next st => onRecvError env st closing

/-- Method `sfuServer.Signal` on a stream that delivers `frames` and then fails
with `closing`: the final state, after the deferred function, and the result. -/
def sfuServer.Signal (env : Env E) (s : sfuServer) (frames : List pb.SignalRequest)
    (closing : pb.RecvError) : SignalState E × Result :=
  let out := signalBody env s frames closing
  (deferred env out.1, out.2)

end sfu

namespace sfu

/-- The RPCs of a trace of `postISLBEvent`, error log lines left out. -/
def rpcCalls : List ISLBEffect → List (islb.ISLBClient × islb.ISLBEvent)
  | [] => []
  | ISLBEffect.PostISLBEvent cli event :: rest => (cli, event) :: rpcCalls rest
  | ISLBEffect.logErrorf _ :: rest => rpcCalls rest

end sfu

namespace ion

/-- A node used in examples. -/
def exampleNode (id : String) (service : String) : discovery.Node :=
  { Service := service, NID := id, RPC := { Protocol := "nats", Addr := "" } }

/-- A memory used in examples: every address holds the zero value. -/
def zeroMemory : Memory :=
  fun _ => { Service := "", NID := "", RPC := { Protocol := "", Addr := "" } }

end ion

namespace biz

/-- Sinks that never fail. -/
def okSinks : Sinks :=
  { sendPeerEvent := fun _ _ => none,
    sendStreamEvent := fun _ _ => none,
    sendMessage := fun _ _ => none }

/-- Sinks that always fail. -/
def badSinks : Sinks :=
  { sendPeerEvent := fun _ _ => some "closed",
    sendStreamEvent := fun _ _ => some "closed",
    sendMessage := fun _ _ => some "closed" }

/-- A peer used in examples, without a last stream event. -/
def examplePeer (uid : String) : Peer :=
  { uid := uid, info := [], lastStreamEvent := none }

/-- A peer used in examples, with a last stream event. -/
def streamingPeer (uid : String) : Peer :=
  { uid := uid, info := [1],
    lastStreamEvent := some
      { Nid := "n1", Sid := "room1", Uid := uid, State := ion.StreamEvent_State.ADD,
        Streams := [{ Id := "s1" }] } }

/-- A room used in examples: the peers "a" and "b". -/
def exampleRoom : Room :=
  { sid := "room1", sfunid := "n1",
    peers := [("a", examplePeer "a"), ("b", streamingPeer "b")] }

end biz

namespace biz

/-- The peer events that a trace delivers to the sink of `q`, in order. -/
def peerEventsTo (q : Peer) : List Effect → List ion.PeerEvent
  | [] => []
  | Effect.sendPeerEvent p event :: rest =>
    if p = q then event :: peerEventsTo q rest else peerEventsTo q rest
  | _ :: rest => peerEventsTo q rest

/-- The stream events that a trace delivers to the sink of `q`, in order. -/
def streamEventsTo (q : Peer) : List Effect → List ion.StreamEvent
  | [] => []
  | Effect.sendStreamEvent p event :: rest =>
    if p = q then event :: streamEventsTo q rest else streamEventsTo q rest
  | _ :: rest => streamEventsTo q rest

/-- The messages that a trace delivers to the sink of `q`, in order. -/
def messagesTo (q : Peer) : List Effect → List ion.Message
  | [] => []
  | Effect.sendMessage p msg :: rest =>
    if p = q then msg :: messagesTo q rest else messagesTo q rest
  | _ :: rest => messagesTo q rest

/-- The condition under which `sendMessage` delivers `msg` to the peer `q`. -/
def isRecipient (r : Room) (msg : ion.Message) (q : Peer) : Prop :=
  r.has q ∧ (msg.To = "all" ∨ msg.To = r.sid ∨ q.uid = msg.To)

end biz

namespace sfu

variable {E : Type}

/-- The stream set of the most recent ADD event in a list of published events,
empty when there is none. -/
def lastAddedStreams (posted : List islb.ISLBEvent) : List ion.Stream :=
  posted.foldl (fun acc ev =>
    match ev with
    | islb.ISLBEvent.Stream e => if e.State = ion.StreamEvent_State.ADD then e.Streams else acc)
    []

/-- The REMOVE events in a list of published events. -/
def removeEvents (posted : List islb.ISLBEvent) : List ion.StreamEvent :=
  posted.filterMap (fun ev =>
    match ev with
    | islb.ISLBEvent.Stream e => if e.State = ion.StreamEvent_State.REMOVE then some e else none)

/-- The streams that an inbound frame announces, in the words of the spec: those
that `ParseSDP` finds in the session description of a `Description` frame that
is an offer. -/
def announcedBy (env : Env E) (req : pb.SignalRequest) : List ion.Stream :=
  match req.Payload with
  | pb.SignalRequest_Payload.Description d =>
    if (env.unmarshalSDP d).1.Typ = webrtc.SDPType.offer then
      (env.ParseSDP (env.unmarshalSDP d).1.SDP).1
    else []
  | _ => []

/-- The stream set of the most recent offer that announced at least one stream,
in the words of the spec; empty when there is none. -/
def lastAnnouncedStreams (env : Env E) (frames : List pb.SignalRequest) : List ion.Stream :=
  frames.foldl (fun acc req => if (announcedBy env req).length > 0 then announcedBy env req else acc)
    []

/-- State NEW of the spec: no join of the media engine has succeeded so far. -/
def SignalState.isNew (st : SignalState E) : Prop :=
  ∀ sid uid, (isfu.Call.Join sid uid, none) ∉ st.calls

/-- What the invariant of the read loop says about a state of a run on the
server `s`: the remembered streams are those of the latest ADD event, no REMOVE
event has been published, and the node of the server is that of `s`. -/
def LoopInv (s : sfuServer) (st : SignalState E) : Prop :=
  st.streams = lastAddedStreams st.posted ∧ removeEvents st.posted = [] ∧ st.s.sn = s.sn

/-- A property holds of the state that a step ends in. -/
def Flow.All (P : SignalState E → Prop) : Flow E → Prop
  | Flow.next st => P st
  | Flow.ret st _ => P st

/-- An example engine: its state is the session and uid of the peer once it
has joined.  It answers offers after a join, except that it ignores the offer
"stream-B" and rejects an empty description. -/
def exampleEngine : isfu.Peer (Option (String × String)) :=
  { NewPeer := none,
    Join := fun e sid uid =>
      match e with
      | none => (some (sid, uid), none)
      | some _ => (e, some isfu.Err.ErrTransportExists),
    Answer := fun e offer =>
      match e with
      | none => (e, none, some isfu.Err.ErrNoTransportEstablished)
      | some _ =>
        if offer.SDP = "" then (e, none, some (isfu.Err.other "invalid offer"))
        else if offer.SDP = "stream-B" then (e, none, some isfu.Err.ErrOfferIgnored)
        else (e, some { Typ := webrtc.SDPType.answer, SDP := "answer" }, none),
    SetRemoteDescription := fun e _ =>
      match e with
      | none => (e, some isfu.Err.ErrNoTransportEstablished)
      | some _ => (e, none),
    Trickle := fun e _ _ =>
      match e with
      | none => (e, some isfu.Err.ErrNoTransportEstablished)
      | some _ => (e, none),
    Close := fun e => e,
    Session := fun e => e.map Prod.fst,
    ID := fun e => (e.map Prod.snd).getD "",
    Error := fun err =>
      match err with
      | isfu.Err.ErrTransportExists => "rpc transport already exists for this connection"
      | isfu.Err.ErrOfferIgnored => "offered ignored"
      | isfu.Err.ErrNoTransportEstablished => "no rpc transport exists for this Peer"
      | isfu.Err.other msg => msg }

/-- An example environment: the description bytes `[1]`, `[2]` and `[3]` decode
to the offers "stream-A", "stream-B" and "data-only", `[4]` to an answer, and
anything else fails to decode; "stream-A" and "stream-B" announce one stream
each; nothing else fails. -/
def exampleEnv : Env (Option (String × String)) :=
  { peer := exampleEngine,
    cluster := { ServiceISLB := "islb", PostISLBEvent := fun _ _ => none },
    unmarshalSDP := fun b =>
      if b = [1] then ({ Typ := webrtc.SDPType.offer, SDP := "stream-A" }, none)
      else if b = [2] then ({ Typ := webrtc.SDPType.offer, SDP := "stream-B" }, none)
      else if b = [3] then ({ Typ := webrtc.SDPType.offer, SDP := "data-only" }, none)
      else if b = [4] then ({ Typ := webrtc.SDPType.answer, SDP := "answer" }, none)
      else ({ Typ := webrtc.SDPType.unknown, SDP := "" }, some "unexpected end of JSON input"),
    marshalSDP := fun _ => ([9], none),
    unmarshalCandidate := fun init =>
      if init = "" then
        ({ Candidate := "", SDPMid := none, SDPMLineIndex := none, UsernameFragment := none },
          some "unexpected end of JSON input")
      else
        ({ Candidate := init, SDPMid := none, SDPMLineIndex := none, UsernameFragment := none },
          none),
    ParseSDP := fun sdp =>
      if sdp = "stream-A" then ([{ Id := "A" }], none)
      else if sdp = "stream-B" then ([{ Id := "B" }], none)
      else ([], none),
    Send := fun _ _ => none }

/-- An example server: node "sfu1" with one neighbour, the ISLB node "islb1". -/
def exampleServer : sfuServer :=
  newSFUServer
    { NID := "sfu1", neighborNodes := [("islb1", ion.exampleNode "islb1" "islb")] }

/-- An example frame: a join of room "room1" by "u1" with the description `d`. -/
def joinFrame (d : Bytes) : pb.SignalRequest :=
  { Id := "1", Payload := pb.SignalRequest_Payload.Join "room1" "u1" d }

/-- An example frame: a description. -/
def descriptionFrame (d : Bytes) : pb.SignalRequest :=
  { Id := "2", Payload := pb.SignalRequest_Payload.Description d }

/-- An example frame: a candidate. -/
def trickleFrame : pb.SignalRequest :=
  { Id := "3", Payload := pb.SignalRequest_Payload.Trickle { Init := "candidate:1", Target := 0 } }

end sfu

namespace sfu

variable {E : Type}

/-- The state `st1` has the remembered streams, the published events and the
server of `st`. -/
def Core (st st1 : SignalState E) : Prop :=
  st1.streams = st.streams ∧ st1.posted = st.posted ∧ st1.s = st.s ∧ st1.islbOut = st.islbOut

/-- The state `st1` differs from `st` by one published ADD event, whose streams
are remembered. -/
def Announced (st st1 : SignalState E) : Prop :=
  ∃ ev : ion.StreamEvent, ev.State = ion.StreamEvent_State.ADD ∧
    st1.posted = st.posted ++ [islb.ISLBEvent.Stream ev] ∧ st1.streams = ev.Streams ∧
    st1.s.sn = st.s.sn

end sfu

namespace sfu

variable {E : Type}

/-- The streams that the frame `req`, arriving in the state `st`, announces
through an answered offer: those that `ParseSDP` finds in the session
description of a `Description` frame that is an offer and that the media engine
answers without an error; none for any other frame. -/
def answeredStreams (env : Env E) (st : SignalState E) (req : pb.SignalRequest) :
    List ion.Stream :=
  match req.Payload with
  | pb.SignalRequest_Payload.Description d =>
    if (env.unmarshalSDP d).1.Typ = webrtc.SDPType.offer ∧
        (env.peer.Answer st.peer (env.unmarshalSDP d).1).2.2 = none then
      (env.ParseSDP (env.unmarshalSDP d).1.SDP).1
    else []
  | _ => []

/-- The frames that the read loop receives, each with the state in which it
arrives; the list ends with the frame on which the handler returns. -/
def arrivals (env : Env E) : SignalState E → List pb.SignalRequest →
    List (SignalState E × pb.SignalRequest)
  | _, [] => []
  | st, req :: rest =>
    (st, req) ::
      (match handleFrame env st req with
       | Flow.next st1 => arrivals env st1 rest
       | Flow.ret _ _ => [])

/-- The stream set of the most recent received frame that is an answered offer
announcing at least one stream; empty when there is none. -/
def lastAnsweredStreams (env : Env E) (arr : List (SignalState E × pb.SignalRequest)) :
    List ion.Stream :=
  arr.foldl (fun acc a =>
    if (answeredStreams env a.1 a.2).length > 0 then answeredStreams env a.1 a.2 else acc) []

/-- The Error frames among the frames sent. -/
def errorFrames (sent : List pb.SignalReply) : List pb.SignalReply :=
  sent.filter (fun r =>
    match r.Payload with
    | pb.SignalReply_Payload.Error _ => true
    | _ => false)

/-- The REMOVE event of a run of `Signal` on the server `s` that closes with
the peer in the state `peer`, the session `sessionID` and the stream set
`streams`. -/
def removeEvent (env : Env E) (s : sfuServer) (peer : E) (sessionID : String)
    (streams : List ion.Stream) : ion.StreamEvent :=
  { Nid := s.sn.NID, Sid := sessionID, Uid := env.peer.ID peer,
    State := ion.StreamEvent_State.REMOVE, Streams := streams }

/-- A property holds of the state with which a step goes on to the next
frame; nothing is said when the handler returns. -/
def Flow.Next (P : SignalState E → Prop) : Flow E → Prop
  | Flow.next st => P st
  | Flow.ret _ _ => True

/-- The state `st1` has the engine state and the remembered streams of `st`. -/
def Keeps (st st1 : SignalState E) : Prop :=
  st1.peer = st.peer ∧ st1.streams = st.streams

/-- The Error frame that answers a candidate when no transport exists. -/
def trickleErrorReply (env : Env E) : pb.SignalReply :=
  { Id := "",
    Payload := pb.SignalReply_Payload.Error
      ("trickle error:  " ++ env.peer.Error isfu.Err.ErrNoTransportEstablished) }

/-- An example event. -/
def exampleEvent : islb.ISLBEvent :=
  islb.ISLBEvent.Stream
    { Nid := "sfu1", Sid := "room1", Uid := "u1", State := ion.StreamEvent_State.ADD,
      Streams := [{ Id := "A" }] }

/-- A cluster in which every RPC to the ISLB node fails. -/
def failingCluster : Cluster :=
  { ServiceISLB := "islb", PostISLBEvent := fun _ _ => some "timeout" }

end sfu

/-! ## Facts about Go maps -/

namespace GoMap

variable {V : Type}

theorem get?_eq_none_iff (m : GoMap V) (k : String) : m.get? k = none ↔ k ∉ keys m := by
  induction m with
  | nil => simp [get?, keys]
  | cons e t ih =>
    obtain ⟨k', v⟩ := e
    by_cases h : k' = k
    · simp [get?, keys, h]
    · have ih' : get? t k = none ↔ k ∉ List.map Prod.fst t := ih
      simp [get?, keys, h, ih', Ne.symm h]

theorem get?_set_self (m : GoMap V) (k : String) (v : V) : (m.set k v).get? k = some v := by
  induction m with
  | nil => simp [set, get?]
  | cons e t ih =>
    obtain ⟨k', v'⟩ := e
    by_cases h : k' = k
    · simp [set, get?, h]
    · simp [set, get?, h, ih]

theorem get?_set_of_ne (m : GoMap V) (k k2 : String) (v : V) (h : k2 ≠ k) :
    (m.set k v).get? k2 = m.get? k2 := by
  induction m with
  | nil => simp [set, get?, Ne.symm h]
  | cons e t ih =>
    obtain ⟨k', v'⟩ := e
    by_cases h1 : k' = k
    · subst h1
      simp [set, get?, Ne.symm h]
    · by_cases h2 : k' = k2
      · subst h2
        simp [set, get?, h1]
      · simp [set, get?, h1, h2, ih]

theorem set_of_not_mem (m : GoMap V) (k : String) (v : V) (h : k ∉ keys m) :
    m.set k v = m ++ [(k, v)] := by
  induction m with
  | nil => simp [set]
  | cons e t ih =>
    obtain ⟨k', v'⟩ := e
    have h1 : k' ≠ k := by
      intro hk
      exact h (by simp [keys, hk])
    have h2 : k ∉ keys t := by
      intro hk
      exact h (by simp [keys] at hk ⊢; exact Or.inr hk)
    simp [set, h1, ih h2]

theorem keys_set_of_mem (m : GoMap V) (k : String) (v : V) (h : k ∈ keys m) :
    keys (m.set k v) = keys m := by
  induction m with
  | nil => simp [keys] at h
  | cons e t ih =>
    obtain ⟨k', v'⟩ := e
    by_cases h1 : k' = k
    · simp [set, keys, h1]
    · have h2 : k ∈ keys t := by
        simp [keys] at h ⊢
        rcases h with h | h
        · exact absurd h.symm h1
        · exact h
      have := ih h2
      simp [set, keys, h1] at this ⊢
      exact this

theorem len_set (m : GoMap V) (k : String) (v : V) :
    (m.set k v).len = if k ∈ keys m then m.len else m.len + 1 := by
  by_cases h : k ∈ keys m
  · have hk := congrArg List.length (keys_set_of_mem m k v h)
    simp [keys] at hk
    simp [h, len, hk]
  · simp [h, set_of_not_mem m k v h, len]

theorem WF_set (m : GoMap V) (k : String) (v : V) (h : m.WF) : (m.set k v).WF := by
  by_cases hk : k ∈ keys m
  · simpa [WF, keys_set_of_mem m k v hk] using h
  · rw [set_of_not_mem m k v hk]
    simp only [WF, keys, List.map_append, List.map_cons, List.map_nil]
    exact List.Nodup.append h (List.nodup_singleton k) (by
      intro a ha hb
      simp at hb
      subst hb
      exact hk ha)

theorem mem_set (m : GoMap V) (k : String) (v : V) (e : String × V) (h : e ∈ m.set k v) :
    e = (k, v) ∨ e ∈ m := by
  induction m with
  | nil => simp [set] at h; exact Or.inl h
  | cons e' t ih =>
    obtain ⟨k', v'⟩ := e'
    by_cases h1 : k' = k
    · simp [set, h1] at h
      rcases h with h | h
      · exact Or.inl h
      · exact Or.inr (List.mem_cons_of_mem _ h)
    · simp [set, h1] at h
      rcases h with h | h
      · exact Or.inr (by simp [h])
      · rcases ih h with h2 | h2
        · exact Or.inl h2
        · exact Or.inr (List.mem_cons_of_mem _ h2)

theorem delete_of_not_mem (m : GoMap V) (k : String) (h : k ∉ keys m) : m.delete k = m := by
  unfold delete
  rw [List.filter_eq_self]
  intro e he
  have : e.1 ≠ k := by
    intro hk
    exact h (by rw [← hk]; exact List.mem_map_of_mem Prod.fst he)
  simpa using this

theorem not_mem_keys_delete (m : GoMap V) (k : String) : k ∉ keys (m.delete k) := by
  intro h
  simp [keys, delete] at h

theorem get?_delete_self (m : GoMap V) (k : String) : (m.delete k).get? k = none :=
  (get?_eq_none_iff _ _).2 (not_mem_keys_delete m k)

theorem WF_delete (m : GoMap V) (k : String) (h : m.WF) : (m.delete k).WF := by
  unfold WF keys delete at *
  exact (List.Nodup.sublist (List.Sublist.map _ (List.filter_sublist _)) h)

theorem mem_delete (m : GoMap V) (k : String) (e : String × V) :
    e ∈ m.delete k ↔ e ∈ m ∧ e.1 ≠ k := by
  simp [delete]

end GoMap

/-! ## The neighbour registry -/

namespace ion

open discovery

theorem get?_records (mem : Memory) (m : GoMap Ptr) (k : String) :
    GoMap.get? (m.map (fun e => (e.1, mem e.2))) k = (GoMap.get? m k).map mem := by
  induction m with
  | nil => rfl
  | cons e t ih =>
    obtain ⟨k1, p⟩ := e
    by_cases h : k1 = k
    · simp [GoMap.get?, h]
    · simp [GoMap.get?, h, ih]

theorem set_records (mem : Memory) (m : GoMap Ptr) (k : String) (p : Ptr) :
    (GoMap.set m k p).map (fun e => (e.1, mem e.2))
      = GoMap.set (m.map (fun e => (e.1, mem e.2))) k (mem p) := by
  induction m with
  | nil => rfl
  | cons e t ih =>
    obtain ⟨k1, p1⟩ := e
    by_cases h : k1 = k
    · simp [GoMap.set, h]
    · simp [GoMap.set, h, ih]

theorem delete_records (mem : Memory) (m : GoMap Ptr) (k : String) :
    (GoMap.delete m k).map (fun e => (e.1, mem e.2))
      = GoMap.delete (m.map (fun e => (e.1, mem e.2))) k := by
  induction m with
  | nil => rfl
  | cons e t ih =>
    obtain ⟨k1, p1⟩ := e
    by_cases h : k1 = k
    · simp [GoMap.delete, h] at ih ⊢
      exact ih
    · simp [GoMap.delete, h] at ih ⊢
      exact ih

/-- While the memory does not change, one call of the handler on addresses is
one call of the handler on the record values. -/
theorem view_handleNeighborNodes (mem : Memory) (n : NodePtrs) (state : NodeState)
    (node : Ptr) :
    (n.handleNeighborNodes mem state node).view mem
      = (n.view mem).handleNeighborNodes state (mem node) := by
  unfold NodePtrs.handleNeighborNodes Node.handleNeighborNodes
  by_cases hs : state = NodeState.NodeUp
  · simp only [hs, if_true]
    have hg := get?_records mem n.neighborNodes (mem node).NID
    cases h : GoMap.get? n.neighborNodes (mem node).NID with
    | none =>
      rw [h] at hg
      simp only [NodePtrs.view, NodePtrs.records, hg, Option.map_none']
      simp only [set_records]
    | some p =>
      rw [h] at hg
      simp only [NodePtrs.view, NodePtrs.records, hg, Option.map_some']
  · by_cases hd : state = NodeState.NodeDown
    · simp only [hd, if_true]
      simp [NodePtrs.view, NodePtrs.records, delete_records]
    · simp [hs, hd]

/-- C8, the code at a failing input: `Watch` on a discovery response with the
nodes "a" and "b" hands the address of its one loop variable to the handler
twice; the handler stores that address under "a" and under "b", and when the
loop is done the record read under "a" is node "b". -/
theorem watch_stores_loop_variable :
    (NodePtrs.Watch 0 zeroMemory (NewNodePtrs "n1")
        [exampleNode "a" "sfu", exampleNode "b" "sfu"]).2.neighborNodes
      = [("a", 0), ("b", 0)] ∧
    (NodePtrs.Watch 0 zeroMemory (NewNodePtrs "n1")
        [exampleNode "a" "sfu", exampleNode "b" "sfu"]).2.records
      (NodePtrs.Watch 0 zeroMemory (NewNodePtrs "n1")
        [exampleNode "a" "sfu", exampleNode "b" "sfu"]).1
      = [("a", exampleNode "b" "sfu"), ("b", exampleNode "b" "sfu")] := by
  decide

/-- C9: an up notification for an absent id stores the node under that id and
touches no other id; for an id that is present it changes nothing, whatever
the service tag and endpoint of the new notification; handling the same up
notification twice gives the same registry as handling it once. -/
theorem up_notification (n : Node) (node : discovery.Node) :
    (n.neighborNodes.get? node.NID = none →
      (n.handleNeighborNodes NodeState.NodeUp node).neighborNodes.get? node.NID = some node ∧
      (∀ k, k ≠ node.NID →
        (n.handleNeighborNodes NodeState.NodeUp node).neighborNodes.get? k
          = n.neighborNodes.get? k) ∧
      (n.handleNeighborNodes NodeState.NodeUp node).neighborNodes.len
        = n.neighborNodes.len + 1) ∧
    (∀ old, n.neighborNodes.get? node.NID = some old →
      n.handleNeighborNodes NodeState.NodeUp node = n) ∧
    (n.handleNeighborNodes NodeState.NodeUp node).handleNeighborNodes NodeState.NodeUp node
      = n.handleNeighborNodes NodeState.NodeUp node := by
  refine ⟨?_, ?_, ?_⟩
  · intro h
    have hk := (GoMap.get?_eq_none_iff _ _).1 h
    simp only [Node.handleNeighborNodes, if_true, h]
    refine ⟨GoMap.get?_set_self _ _ _, ?_, ?_⟩
    · intro k hkne
      exact GoMap.get?_set_of_ne _ _ _ _ hkne
    · rw [GoMap.len_set]
      simp [hk]
  · intro old h
    simp [Node.handleNeighborNodes, h]
  · cases h : n.neighborNodes.get? node.NID with
    | some old => simp [Node.handleNeighborNodes, h]
    | none =>
      have h1 : (n.handleNeighborNodes NodeState.NodeUp node).neighborNodes.get? node.NID
          = some node := by
        simp only [Node.handleNeighborNodes, if_true, h]
        exact GoMap.get?_set_self _ _ _
      generalize n.handleNeighborNodes NodeState.NodeUp node = n1 at h1
      simp [Node.handleNeighborNodes, h1]

end ion

namespace ion

open discovery

theorem up_notification_witness :
    ((NewNode "n1").handleNeighborNodes NodeState.NodeUp (exampleNode "a" "sfu")
      ).neighborNodes.get? "a" = some (exampleNode "a" "sfu") ∧
    ((NewNode "n1").handleNeighborNodes NodeState.NodeUp (exampleNode "a" "sfu")
      ).handleNeighborNodes NodeState.NodeUp (exampleNode "a" "islb")
      = (NewNode "n1").handleNeighborNodes NodeState.NodeUp (exampleNode "a" "sfu") :=
  ⟨((up_notification (NewNode "n1") (exampleNode "a" "sfu")).1 (by decide)).1,
    (up_notification ((NewNode "n1").handleNeighborNodes NodeState.NodeUp (exampleNode "a" "sfu"))
      (exampleNode "a" "islb")).2.1 (exampleNode "a" "sfu") (by decide)⟩

end ion

/-! ## The event publisher -/

namespace sfu

theorem resolveISLB_some (tag : String) (m : GoMap discovery.Node) (cli : islb.ISLBClient)
    (h : resolveISLB tag m = some cli) :
    ∃ e ∈ m, e.2.NID = cli.nid ∧ e.2.Service = tag := by
  induction m with
  | nil => simp [resolveISLB] at h
  | cons e t ih =>
    obtain ⟨k, node⟩ := e
    by_cases hs : node.Service = tag
    · simp only [resolveISLB, hs, if_true, Option.some.injEq] at h
      exact ⟨(k, node), List.mem_cons_self _ _, by rw [← h], hs⟩
    · simp only [resolveISLB, hs, if_false] at h
      obtain ⟨e, he, h1, h2⟩ := ih h
      exact ⟨e, List.mem_cons_of_mem _ he, h1, h2⟩

theorem resolveISLB_none (tag : String) (m : GoMap discovery.Node) :
    resolveISLB tag m = none ↔ ∀ e ∈ m, e.2.Service ≠ tag := by
  induction m with
  | nil => simp [resolveISLB]
  | cons e t ih =>
    obtain ⟨k, node⟩ := e
    by_cases hs : node.Service = tag
    · simp [resolveISLB, hs]
    · simp [resolveISLB, hs, ih]

/-- C10: with no cached client, `postISLBEvent` binds the cache only to a
neighbour of the registry whose service tag is `ServiceISLB` and sends the
event to it; the cache stays unset exactly when no neighbour has that tag, and
then no RPC is sent and the server is unchanged.  With a cached client the
server is unchanged and the one RPC goes to the cached client, whatever the
registry holds and whether or not the RPC fails. -/
theorem postISLBEvent_cache (c : Cluster) (s : sfuServer) (event : islb.ISLBEvent) :
    (s.islbcli = none →
      (∀ cli, (s.postISLBEvent c event).1.islbcli = some cli →
        (∃ e ∈ s.sn.neighborNodes, e.2.NID = cli.nid ∧ e.2.Service = c.ServiceISLB) ∧
        rpcCalls (s.postISLBEvent c event).2 = [(cli, event)]) ∧
      ((s.postISLBEvent c event).1.islbcli = none ↔
        ∀ e ∈ s.sn.neighborNodes, e.2.Service ≠ c.ServiceISLB) ∧
      ((s.postISLBEvent c event).1.islbcli = none →
        (s.postISLBEvent c event).2 = [] ∧ (s.postISLBEvent c event).1 = s)) ∧
    (∀ cli, s.islbcli = some cli →
      (s.postISLBEvent c event).1 = s ∧
      rpcCalls (s.postISLBEvent c event).2 = [(cli, event)]) := by
  constructor
  · intro hnone
    cases hr : resolveISLB c.ServiceISLB s.sn.neighborNodes with
    | none =>
      have hpost : s.postISLBEvent c event = (s, []) := by
        simp [sfuServer.postISLBEvent, hnone, hr, ion.Node.GetNeighborNodes]
      rw [hpost]
      refine ⟨?_, ?_, ?_⟩
      · intro cli hcli
        simp [hnone] at hcli
      · simp only [hnone, true_iff]
        exact (resolveISLB_none _ _).1 hr
      · intro _
        exact ⟨rfl, rfl⟩
    | some cli0 =>
      have hst : (s.postISLBEvent c event).1 = { s with islbcli := some cli0 } := by
        simp [sfuServer.postISLBEvent, hnone, hr, ion.Node.GetNeighborNodes]
      have hrpc : rpcCalls (s.postISLBEvent c event).2 = [(cli0, event)] := by
        simp only [sfuServer.postISLBEvent, hnone, hr, ion.Node.GetNeighborNodes]
        cases c.PostISLBEvent cli0 event <;> simp [rpcCalls]
      refine ⟨?_, ?_, ?_⟩
      · intro cli hcli
        rw [hst] at hcli
        simp only [Option.some.injEq] at hcli
        subst hcli
        exact ⟨resolveISLB_some _ _ _ hr, hrpc⟩
      · rw [hst]
        constructor
        · intro h
          cases h
        · intro hall
          rw [(resolveISLB_none _ _).2 hall] at hr
          cases hr
      · rw [hst]
        intro h
        cases h
  · intro cli hcli
    constructor
    · simp [sfuServer.postISLBEvent, hcli]
    · simp only [sfuServer.postISLBEvent, hcli]
      cases c.PostISLBEvent cli event <;> simp [rpcCalls]

end sfu

/-! ## Rooms -/

namespace biz

theorem peerEventsTo_append (q : Peer) (a b : List Effect) :
    peerEventsTo q (a ++ b) = peerEventsTo q a ++ peerEventsTo q b := by
  induction a with
  | nil => rfl
  | cons e t ih =>
    cases e with
    | sendPeerEvent p event =>
      by_cases h : p = q <;> simp [peerEventsTo, h, ih]
    | sendStreamEvent p event => simpa [peerEventsTo] using ih
    | sendMessage p msg => simpa [peerEventsTo] using ih
    | logErrorf line => simpa [peerEventsTo] using ih

theorem streamEventsTo_append (q : Peer) (a b : List Effect) :
    streamEventsTo q (a ++ b) = streamEventsTo q a ++ streamEventsTo q b := by
  induction a with
  | nil => rfl
  | cons e t ih =>
    cases e with
    | sendStreamEvent p event =>
      by_cases h : p = q <;> simp [streamEventsTo, h, ih]
    | sendPeerEvent p event => simpa [streamEventsTo] using ih
    | sendMessage p msg => simpa [streamEventsTo] using ih
    | logErrorf line => simpa [streamEventsTo] using ih

theorem messagesTo_append (q : Peer) (a b : List Effect) :
    messagesTo q (a ++ b) = messagesTo q a ++ messagesTo q b := by
  induction a with
  | nil => rfl
  | cons e t ih =>
    cases e with
    | sendMessage p msg =>
      by_cases h : p = q <;> simp [messagesTo, h, ih]
    | sendPeerEvent p event => simpa [messagesTo] using ih
    | sendStreamEvent p event => simpa [messagesTo] using ih
    | logErrorf line => simpa [messagesTo] using ih

theorem peerEventCalls_eq_count (q : Peer) (event : ion.PeerEvent) (t : List Effect) :
    peerEventCalls t q event = (peerEventsTo q t).count event := by
  induction t with
  | nil => rfl
  | cons e t ih =>
    unfold peerEventCalls at ih ⊢
    cases e with
    | sendPeerEvent p ev =>
      by_cases h : p = q
      · subst h
        by_cases h2 : ev = event
        · subst h2
          simp [peerEventsTo, ih]
        · have h3 : ¬ (Effect.sendPeerEvent p ev = Effect.sendPeerEvent p event) := by
            intro hc
            injection hc with _ hc2
            exact h2 hc2
          simp [peerEventsTo, List.count_cons, h2, h3, ih]
      · have h3 : ¬ (Effect.sendPeerEvent p ev = Effect.sendPeerEvent q event) := by
          intro hc
          injection hc with hc1 _
          exact h hc1
        simp [peerEventsTo, List.count_cons, h, h3, ih]
    | sendStreamEvent p ev => simp [peerEventsTo, List.count_cons, ih]
    | sendMessage p msg => simp [peerEventsTo, List.count_cons, ih]
    | logErrorf line => simp [peerEventsTo, List.count_cons, ih]

theorem logSendError_projections (format : String) (p q : Peer) (err : Option String) :
    peerEventsTo q (logSendError format p err) = [] ∧
    streamEventsTo q (logSendError format p err) = [] ∧
    messagesTo q (logSendError format p err) = [] ∧
    sinkCalls (logSendError format p err) = [] := by
  cases err <;> simp [logSendError, peerEventsTo, streamEventsTo, messagesTo, sinkCalls]

theorem peerEventsTo_sendPeerEventLoop (sk : Sinks) (event : ion.PeerEvent) (q : Peer)
    (m : GoMap Peer) :
    peerEventsTo q (sendPeerEventLoop sk event m)
      = List.replicate ((m.map Prod.snd).count q) event := by
  induction m with
  | nil => rfl
  | cons e t ih =>
    obtain ⟨k, p⟩ := e
    by_cases h : p = q
    · subst h
      simp [sendPeerEventLoop, peerEventsTo, peerEventsTo_append,
        (logSendError_projections _ p p _).1, ih, List.replicate_succ]
    · simp [sendPeerEventLoop, peerEventsTo, peerEventsTo_append,
        (logSendError_projections _ p q _).1, h, ih, List.count_cons]

theorem streamEventsTo_sendPeerEventLoop (sk : Sinks) (event : ion.PeerEvent) (q : Peer)
    (m : GoMap Peer) : streamEventsTo q (sendPeerEventLoop sk event m) = [] := by
  induction m with
  | nil => rfl
  | cons e t ih =>
    obtain ⟨k, p⟩ := e
    simp [sendPeerEventLoop, streamEventsTo, streamEventsTo_append,
      (logSendError_projections _ p q _).2.1, ih]

theorem peerEventsTo_addPeerLoop (sid : String) (p q : Peer) (m : GoMap Peer) :
    peerEventsTo q (addPeerLoop sid p m)
      = if p = q then m.map (fun e => joinEvent sid e.2) else [] := by
  induction m with
  | nil => simp [addPeerLoop, peerEventsTo]
  | cons e t ih =>
    obtain ⟨k, peer⟩ := e
    by_cases h : p = q
    · cases hl : peer.lastStreamEvent <;>
        simp [addPeerLoop, peerEventsTo, peerEventsTo_append, h, hl, joinEvent] at ih ⊢ <;>
        exact ih
    · cases hl : peer.lastStreamEvent <;>
        simp [addPeerLoop, peerEventsTo, peerEventsTo_append, h, hl] at ih ⊢ <;>
        exact ih

theorem streamEventsTo_addPeerLoop (sid : String) (p q : Peer) (m : GoMap Peer) :
    streamEventsTo q (addPeerLoop sid p m)
      = if p = q then m.filterMap (fun e => e.2.lastStreamEvent) else [] := by
  induction m with
  | nil => simp [addPeerLoop, streamEventsTo]
  | cons e t ih =>
    obtain ⟨k, peer⟩ := e
    by_cases h : p = q
    · cases hl : peer.lastStreamEvent <;>
        simp [addPeerLoop, streamEventsTo, streamEventsTo_append, h, hl,
          List.filterMap_cons] at ih ⊢ <;>
        exact ih
    · cases hl : peer.lastStreamEvent <;>
        simp [addPeerLoop, streamEventsTo, streamEventsTo_append, h, hl] at ih ⊢ <;>
        exact ih

theorem Room.WF_values_nodup (r : Room) (h : r.WF) : (r.peers.map Prod.snd).Nodup := by
  have hk : r.peers.map Prod.fst = (r.peers.map Prod.snd).map Peer.uid := by
    rw [List.map_map]
    apply List.map_congr_left
    intro e he
    exact h.2 e he
  have h1 : (r.peers.map Prod.fst).Nodup := h.1
  rw [hk] at h1
  exact List.Nodup.of_map _ h1

theorem Room.has_iff (r : Room) (q : Peer) : r.has q ↔ q ∈ r.peers.map Prod.snd := by
  simp [Room.has]

end biz

namespace biz

theorem newRoom_WF (sid sfunid : String) : (newRoom sid sfunid).WF := by
  simp [Room.WF, newRoom, GoMap.WF, GoMap.keys]

theorem addPeer_WF (sk : Sinks) (r : Room) (p : Peer) (h : r.WF) : (r.addPeer sk p).1.WF := by
  refine ⟨GoMap.WF_set _ _ _ h.1, ?_⟩
  intro e he
  rcases GoMap.mem_set _ _ _ _ he with h1 | h1
  · rw [h1]
  · exact h.2 e h1

theorem delPeer_WF (sk : Sinks) (r : Room) (uid : String) (h : r.WF) :
    (r.delPeer sk uid).1.WF := by
  refine ⟨GoMap.WF_delete _ _ h.1, ?_⟩
  intro e he
  exact h.2 e ((GoMap.mem_delete _ _ _).1 he).1

theorem count_member (r : Room) (h : r.WF) (q : Peer) (hq : r.has q) :
    (r.peers.map Prod.snd).count q = 1 :=
  List.count_eq_one_of_mem (Room.WF_values_nodup r h) ((Room.has_iff r q).1 hq)

theorem joinEvents_nodup (r : Room) (h : r.WF) :
    (r.peers.map (fun e => joinEvent r.sid e.2)).Nodup := by
  have hk : r.peers.map Prod.fst
      = (r.peers.map (fun e => joinEvent r.sid e.2)).map (fun ev => ev.Peer.Uid) := by
    rw [List.map_map]
    apply List.map_congr_left
    intro e he
    simpa [joinEvent] using h.2 e he
  have h1 : (r.peers.map Prod.fst).Nodup := h.1
  rw [hk] at h1
  exact List.Nodup.of_map _ h1

/-- C1, amended: when the room is well formed and `p` is not already one of its
peers, `addPeer(p)` delivers to every peer of the room exactly one peer event,
the JOIN event of `p` with the room's session id, and no stream event; it
delivers to `p` exactly one JOIN event per peer of the room, with that peer's
uid and info, and exactly the last stream events of the peers that have one. -/
theorem addPeer_events (sk : Sinks) (r : Room) (p : Peer) (hwf : r.WF) (hnew : ¬ r.has p) :
    (∀ q, r.has q →
      peerEventsTo q (r.addPeer sk p).2 = [joinEvent r.sid p] ∧
      peerEventCalls (r.addPeer sk p).2 q (joinEvent r.sid p) = 1 ∧
      streamEventsTo q (r.addPeer sk p).2 = []) ∧
    peerEventsTo p (r.addPeer sk p).2 = r.peers.map (fun e => joinEvent r.sid e.2) ∧
    (∀ q, r.has q → peerEventCalls (r.addPeer sk p).2 p (joinEvent r.sid q) = 1) ∧
    streamEventsTo p (r.addPeer sk p).2
      = r.peers.filterMap (fun e => e.2.lastStreamEvent) := by
  have hp0 : (r.peers.map Prod.snd).count p = 0 :=
    List.count_eq_zero_of_not_mem (fun hm => hnew ((Room.has_iff r p).2 hm))
  have hpe : ∀ q, peerEventsTo q (r.addPeer sk p).2
      = List.replicate ((r.peers.map Prod.snd).count q) (joinEvent r.sid p)
        ++ (if p = q then r.peers.map (fun e => joinEvent r.sid e.2) else []) := by
    intro q
    simp only [Room.addPeer, Room.sendPeerEvent, Room.getPeers, peerEventsTo_append,
      peerEventsTo_sendPeerEventLoop, peerEventsTo_addPeerLoop]
    rfl
  have hse : ∀ q, streamEventsTo q (r.addPeer sk p).2
      = (if p = q then r.peers.filterMap (fun e => e.2.lastStreamEvent) else []) := by
    intro q
    simp only [Room.addPeer, Room.sendPeerEvent, Room.getPeers, streamEventsTo_append,
      streamEventsTo_sendPeerEventLoop, streamEventsTo_addPeerLoop, List.nil_append]
  have hmem : ∀ q, r.has q →
      peerEventsTo q (r.addPeer sk p).2 = [joinEvent r.sid p] := by
    intro q hq
    have hne : p ≠ q := fun h => hnew (h ▸ hq)
    rw [hpe q, count_member r hwf q hq]
    simp [hne]
  have hpp : peerEventsTo p (r.addPeer sk p).2
      = r.peers.map (fun e => joinEvent r.sid e.2) := by
    rw [hpe p, hp0]
    simp
  refine ⟨?_, hpp, ?_, ?_⟩
  · intro q hq
    have hne : p ≠ q := fun h => hnew (h ▸ hq)
    refine ⟨hmem q hq, ?_, ?_⟩
    · rw [peerEventCalls_eq_count, hmem q hq]
      simp
    · rw [hse q]
      simp [hne]
  · intro q hq
    rw [peerEventCalls_eq_count, hpp]
    apply List.count_eq_one_of_mem (joinEvents_nodup r hwf)
    obtain ⟨e, he, heq⟩ := hq
    exact List.mem_map.2 ⟨e, he, by rw [heq]⟩
  · rw [hse p]
    simp

/-- C4, amended: `addPeer(p)` raises `count()` by exactly one when no peer is
stored under the uid of `p`; when one is, its entry is overwritten and the
count is unchanged.  In both cases `p` is afterwards the peer stored under its
uid, and the peers stored under the other uids are the same as before. -/
theorem addPeer_count (sk : Sinks) (r : Room) (p : Peer) :
    (r.getPeer p.uid = none → (r.addPeer sk p).1.count = r.count + 1) ∧
    (∀ old, r.getPeer p.uid = some old → (r.addPeer sk p).1.count = r.count) ∧
    (r.addPeer sk p).1.getPeer p.uid = some p ∧
    (∀ uid, uid ≠ p.uid → (r.addPeer sk p).1.getPeer uid = r.getPeer uid) := by
  refine ⟨?_, ?_, ?_, ?_⟩
  · intro h
    have hk := (GoMap.get?_eq_none_iff _ _).1 h
    show (r.peers.set p.uid p).len = r.peers.len + 1
    rw [GoMap.len_set]
    simp [hk]
  · intro old h
    have hk : p.uid ∈ GoMap.keys r.peers := by
      by_contra hc
      have := (GoMap.get?_eq_none_iff _ _).2 hc
      simp [Room.getPeer] at h
      rw [this] at h
      cases h
    show (r.peers.set p.uid p).len = r.peers.len
    rw [GoMap.len_set]
    simp [hk]
  · exact GoMap.get?_set_self _ _ _
  · intro uid hne
    exact GoMap.get?_set_of_ne _ _ _ _ hne

end biz

namespace biz

theorem exampleRoom_WF : exampleRoom.WF := by
  unfold Room.WF GoMap.WF GoMap.keys
  decide

theorem exampleRoom_has_a : exampleRoom.has (examplePeer "a") :=
  ⟨("a", examplePeer "a"), by decide, rfl⟩

theorem exampleRoom_has_b : exampleRoom.has (streamingPeer "b") :=
  ⟨("b", streamingPeer "b"), by decide, rfl⟩

theorem exampleRoom_new_c : ¬ exampleRoom.has (examplePeer "c") := by
  rintro ⟨e, he, h⟩
  have : (examplePeer "c") ∈ exampleRoom.peers.map Prod.snd := List.mem_map.2 ⟨e, he, h⟩
  revert this
  decide

theorem addPeer_events_witness :
    peerEventsTo (streamingPeer "b") (exampleRoom.addPeer badSinks (examplePeer "c")).2
      = [joinEvent "room1" (examplePeer "c")] ∧
    streamEventsTo (examplePeer "c") (exampleRoom.addPeer badSinks (examplePeer "c")).2
      = [{ Nid := "n1", Sid := "room1", Uid := "b", State := ion.StreamEvent_State.ADD,
           Streams := [{ Id := "s1" }] }] :=
  ⟨((addPeer_events badSinks exampleRoom (examplePeer "c") exampleRoom_WF
      exampleRoom_new_c).1 (streamingPeer "b") exampleRoom_has_b).1,
    (addPeer_events badSinks exampleRoom (examplePeer "c") exampleRoom_WF
      exampleRoom_new_c).2.2.2⟩

/-- C1 fails as stated: when `addPeer` is called with a peer that is already in
the room, the peer-event sink of that peer is invoked twice with its own JOIN
event, not once. -/
theorem addPeer_member_twice :
    exampleRoom.WF ∧ exampleRoom.has (examplePeer "a") ∧
    peerEventCalls (exampleRoom.addPeer okSinks (examplePeer "a")).2 (examplePeer "a")
      (joinEvent exampleRoom.sid (examplePeer "a")) = 2 :=
  ⟨exampleRoom_WF, exampleRoom_has_a, by decide⟩

/-- C4 fails as stated: adding a peer whose uid is already a key of the peer map
overwrites the entry, and the count stays at two. -/
theorem addPeer_same_uid_count :
    exampleRoom.count = 2 ∧
    (exampleRoom.addPeer okSinks (streamingPeer "a")).1.count = 2 := by
  decide

theorem addPeer_count_witness :
    (exampleRoom.addPeer okSinks (examplePeer "c")).1.count = exampleRoom.count + 1 ∧
    (exampleRoom.addPeer okSinks (streamingPeer "a")).1.count = exampleRoom.count ∧
    (exampleRoom.addPeer okSinks (streamingPeer "a")).1.getPeer "a" = some (streamingPeer "a") ∧
    (exampleRoom.addPeer okSinks (streamingPeer "a")).1.getPeer "b" = exampleRoom.getPeer "b" :=
  ⟨(addPeer_count okSinks exampleRoom (examplePeer "c")).1 (by decide),
    (addPeer_count okSinks exampleRoom (streamingPeer "a")).2.1 (examplePeer "a") (by decide),
    (addPeer_count okSinks exampleRoom (streamingPeer "a")).2.2.1,
    (addPeer_count okSinks exampleRoom (streamingPeer "a")).2.2.2 "b" (by decide)⟩

/-- C2: on a well-formed room, `delPeer(uid)` returns the value that `count()`
has afterwards; afterwards no peer is stored under `uid` and the peers of the
room are those that were stored under another key; each of them receives
exactly one peer event, the LEAVE event with `uid` and the room's session id. -/
theorem delPeer_contract (sk : Sinks) (r : Room) (uid : String) (hwf : r.WF) :
    (r.delPeer sk uid).2.1 = (r.delPeer sk uid).1.count ∧
    (r.delPeer sk uid).1.getPeer uid = none ∧
    (∀ q, (r.delPeer sk uid).1.has q ↔ ∃ e ∈ r.peers, e.2 = q ∧ e.1 ≠ uid) ∧
    (∀ q, (r.delPeer sk uid).1.has q →
      peerEventsTo q (r.delPeer sk uid).2.2 = [leaveEvent r.sid uid] ∧
      peerEventCalls (r.delPeer sk uid).2.2 q (leaveEvent r.sid uid) = 1) := by
  refine ⟨rfl, GoMap.get?_delete_self _ _, ?_, ?_⟩
  · intro q
    constructor
    · rintro ⟨e, he, heq⟩
      have := (GoMap.mem_delete _ _ _).1 he
      exact ⟨e, this.1, heq, this.2⟩
    · rintro ⟨e, he, heq, hne⟩
      exact ⟨e, (GoMap.mem_delete _ _ _).2 ⟨he, hne⟩, heq⟩
  · intro q hq
    have hwf2 := delPeer_WF sk r uid hwf
    have h1 : peerEventsTo q (r.delPeer sk uid).2.2 = [leaveEvent r.sid uid] := by
      have := peerEventsTo_sendPeerEventLoop sk (leaveEvent r.sid uid) q (r.peers.delete uid)
      have hc := count_member (r.delPeer sk uid).1 hwf2 q hq
      simp only [Room.delPeer] at hc
      rw [hc] at this
      simpa [Room.delPeer, Room.sendPeerEvent, Room.getPeers, leaveEvent] using this
    refine ⟨h1, ?_⟩
    rw [peerEventCalls_eq_count, h1]
    simp

theorem delPeer_contract_witness :
    peerEventsTo (streamingPeer "b") (exampleRoom.delPeer badSinks "a").2.2
      = [leaveEvent "room1" "a"] :=
  ((delPeer_contract badSinks exampleRoom "a" exampleRoom_WF).2.2.2 (streamingPeer "b")
    ⟨("b", streamingPeer "b"), by decide, rfl⟩).1

theorem sinkCalls_append (a b : List Effect) :
    sinkCalls (a ++ b) = sinkCalls a ++ sinkCalls b := by
  simp [sinkCalls]

theorem messagesTo_sendMessageLoop (sk : Sinks) (sid : String) (msg : ion.Message) (q : Peer)
    (m : GoMap Peer) :
    messagesTo q (sendMessageLoop sk sid msg m)
      = List.replicate
          (((m.filter (fun e => decide (e.1 = msg.To ∨ msg.To = "all" ∨ msg.To = sid))).map
            Prod.snd).count q) msg := by
  induction m with
  | nil => rfl
  | cons e t ih =>
    obtain ⟨k, p⟩ := e
    by_cases hc : k = msg.To ∨ msg.To = "all" ∨ msg.To = sid
    · by_cases h : p = q
      · subst h
        simp [sendMessageLoop, hc, messagesTo, messagesTo_append,
          (logSendError_projections _ p p _).2.2.1, ih, List.replicate_succ]
      · simp [sendMessageLoop, hc, messagesTo, messagesTo_append,
          (logSendError_projections _ p q _).2.2.1, ih, h, List.count_cons]
    · simp [sendMessageLoop, hc, ih]

theorem sinkCalls_sendMessageLoop (sk : Sinks) (sid : String) (msg : ion.Message)
    (m : GoMap Peer) :
    sinkCalls (sendMessageLoop sk sid msg m)
      = (m.filter (fun e => decide (e.1 = msg.To ∨ msg.To = "all" ∨ msg.To = sid))).map
          (fun e => Effect.sendMessage e.2 msg) := by
  induction m with
  | nil => rfl
  | cons e t ih =>
    obtain ⟨k, p⟩ := e
    by_cases hc : k = msg.To ∨ msg.To = "all" ∨ msg.To = sid
    · have hl := (logSendError_projections "send msg to peer(%s) error: %v" p p
        (sk.sendMessage p msg)).2.2.2
      have : sendMessageLoop sk sid msg ((k, p) :: t)
          = [Effect.sendMessage p msg]
            ++ (logSendError "send msg to peer(%s) error: %v" p (sk.sendMessage p msg)
              ++ sendMessageLoop sk sid msg t) := by
        simp [sendMessageLoop, hc]
      rw [this, sinkCalls_append, sinkCalls_append, hl, ih]
      simp [sinkCalls, hc]
    · simp [sendMessageLoop, hc, ih]

/-- C3: on a well-formed room, `sendMessage(msg)` delivers `msg` exactly once to
every peer of the room when `msg.To` is "all" or the session id, and otherwise
exactly once to the peer of the room whose uid is `msg.To`; every other peer
receives no message; the sink calls are the same whichever sends fail. -/
theorem sendMessage_contract (sk : Sinks) (r : Room) (msg : ion.Message) (hwf : r.WF) :
    (∀ q, isRecipient r msg q → messagesTo q (r.sendMessage sk msg) = [msg]) ∧
    (∀ q, ¬ isRecipient r msg q → messagesTo q (r.sendMessage sk msg) = []) ∧
    (∀ sk2 : Sinks, sinkCalls (r.sendMessage sk2 msg) = sinkCalls (r.sendMessage sk msg)) := by
  have hnd : ((r.peers.filter
      (fun e => decide (e.1 = msg.To ∨ msg.To = "all" ∨ msg.To = r.sid))).map Prod.snd).Nodup :=
    List.Nodup.sublist (List.Sublist.map _ (List.filter_sublist _)) (Room.WF_values_nodup r hwf)
  have hmem : ∀ q, q ∈ (r.peers.filter
      (fun e => decide (e.1 = msg.To ∨ msg.To = "all" ∨ msg.To = r.sid))).map Prod.snd
      ↔ isRecipient r msg q := by
    intro q
    simp only [List.mem_map, List.mem_filter, decide_eq_true_eq, isRecipient, Room.has]
    constructor
    · rintro ⟨e, ⟨he, hc⟩, heq⟩
      refine ⟨⟨e, he, heq⟩, ?_⟩
      rw [← heq, ← hwf.2 e he]
      tauto
    · rintro ⟨⟨e, he, heq⟩, hc⟩
      refine ⟨e, ⟨he, ?_⟩, heq⟩
      rw [← heq, ← hwf.2 e he] at hc
      tauto
  refine ⟨?_, ?_, ?_⟩
  · intro q hq
    simp only [Room.sendMessage, Room.getPeers, messagesTo_sendMessageLoop]
    rw [List.count_eq_one_of_mem hnd ((hmem q).2 hq)]
    rfl
  · intro q hq
    simp only [Room.sendMessage, Room.getPeers, messagesTo_sendMessageLoop]
    rw [List.count_eq_zero_of_not_mem (fun h => hq ((hmem q).1 h))]
    rfl
  · intro sk2
    simp only [Room.sendMessage, Room.getPeers, sinkCalls_sendMessageLoop]

theorem sendMessage_contract_witness :
    messagesTo (examplePeer "a")
        (exampleRoom.sendMessage badSinks { From := "a", To := "all", Data := [7] })
      = [{ From := "a", To := "all", Data := [7] }] ∧
    messagesTo (examplePeer "a")
        (exampleRoom.sendMessage badSinks { From := "a", To := "b", Data := [7] }) = [] :=
  ⟨(sendMessage_contract badSinks exampleRoom { From := "a", To := "all", Data := [7] }
      exampleRoom_WF).1 (examplePeer "a") ⟨exampleRoom_has_a, Or.inl rfl⟩,
    (sendMessage_contract badSinks exampleRoom { From := "a", To := "b", Data := [7] }
      exampleRoom_WF).2.1 (examplePeer "a") (by
        rintro ⟨_, h⟩
        revert h
        decide)⟩

end biz

/-! ## The signalling handler -/

namespace sfu

variable {E : Type}

theorem Core.refl (st : SignalState E) : Core st st := ⟨rfl, rfl, rfl, rfl⟩

theorem Core.trans {a b c : SignalState E} (h1 : Core a b) (h2 : Core b c) : Core a c :=
  ⟨h2.1.trans h1.1, h2.2.1.trans h1.2.1, h2.2.2.1.trans h1.2.2.1, h2.2.2.2.trans h1.2.2.2⟩

theorem Flow.All_mono {P Q : SignalState E → Prop} (f : Flow E) (h : ∀ st, P st → Q st)
    (hf : f.All P) : f.All Q := by
  cases f with
  | next st => exact h st hf
  | ret st r => exact h st hf

theorem andThen_All {P Q : SignalState E → Prop} (f : Flow E) (k : SignalState E → Flow E)
    (hf : f.All Q) (hret : ∀ st, Q st → P st) (hk : ∀ st, Q st → (k st).All P) :
    (f.andThen k).All P := by
  cases f with
  | next st => exact hk st hf
  | ret st r => exact hret st hf

theorem sendErrorFrame_core (env : Env E) (st : SignalState E) (text : String) :
    (sendErrorFrame env st text).All (Core st) := by
  unfold sendErrorFrame SignalState.Send
  cases env.Send st.sent { Id := "", Payload := pb.SignalReply_Payload.Error text } <;>
    simp [Flow.All, Core, SignalState.logf]

theorem guard_core (env : Env E) (st : SignalState E) (err : Option String) (tag : String) :
    (match err with
      | some e => sendErrorFrame env st (tag ++ e)
      | none => Flow.next st).All (Core st) := by
  cases err with
  | none => exact Core.refl st
  | some e => exact sendErrorFrame_core env st _

theorem onJoin_core (env : Env E) (st : SignalState E) (req : pb.SignalRequest)
    (Sid Uid : String) (Description : Bytes) :
    (onJoin env st req Sid Uid Description).All (Core st) := by
  unfold onJoin
  apply andThen_All _ _ (guard_core env st _ _) (fun _ h => h)
  intro st1 h1
  apply andThen_All (Q := Core st)
  · cases hj : (env.peer.Join (st1.record isfu.Call.setCallbacks none).peer Sid Uid).2 with
    | none => exact h1
    | some err =>
      simp only []
      split
      · exact Flow.All_mono _ (fun _ h => Core.trans h1 h) (sendErrorFrame_core env _ _)
      · exact h1
  · exact fun _ h => h
  · intro st4 h4
    simp only []
    split
    · exact h4
    · split
      · exact h4
      · unfold SignalState.Send
        split
        · rename_i heq
          simp only [Prod.mk.injEq] at heq
          rw [← heq.1]
          exact h4
        · rename_i heq
          simp only [Prod.mk.injEq] at heq
          rw [← heq.1]
          exact h4

end sfu

namespace sfu

variable {E : Type}

theorem onTrickle_core (env : Env E) (st : SignalState E) (t : pb.Trickle) :
    (onTrickle env st t).All (Core st) := by
  unfold onTrickle
  simp only []
  split
  · exact Flow.All_mono _ (fun _ h => Core.trans (Core.refl st) h) (sendErrorFrame_core env _ _)
  · split
    · split
      · exact Flow.All_mono _ (fun _ h => Core.trans (Core.refl st) h)
          (sendErrorFrame_core env _ _)
      · exact Core.refl st
    · exact Core.refl st

theorem post_posted (env : Env E) (st : SignalState E) (event : islb.ISLBEvent) :
    (st.post env event).posted = st.posted ++ [event] := rfl

theorem post_streams (env : Env E) (st : SignalState E) (event : islb.ISLBEvent) :
    (st.post env event).streams = st.streams := rfl

theorem post_sent (env : Env E) (st : SignalState E) (event : islb.ISLBEvent) :
    (st.post env event).sent = st.sent := rfl

theorem postISLBEvent_sn (c : Cluster) (s : sfuServer) (event : islb.ISLBEvent) :
    (s.postISLBEvent c event).1.sn = s.sn := by
  obtain ⟨cache, sn⟩ := s
  cases cache with
  | some cli => rfl
  | none =>
    unfold sfuServer.postISLBEvent
    simp only []
    cases resolveISLB c.ServiceISLB (ion.Node.GetNeighborNodes sn) <;> rfl

theorem post_sn (env : Env E) (st : SignalState E) (event : islb.ISLBEvent) :
    (st.post env event).s.sn = st.s.sn :=
  postISLBEvent_sn env.cluster st.s event

theorem announce_tail (env : Env E) (st st1 : SignalState E) (newStreams : List ion.Stream)
    (h : Core st st1) :
    (if newStreams.length > 0 then
      match env.peer.Session st1.peer with
      | none => Flow.ret st1 Result.nilDereference
      | some sessionID =>
        Flow.next { st1.post env (islb.ISLBEvent.Stream
          { Nid := st1.s.sn.NID, Sid := sessionID, Uid := env.peer.ID st1.peer,
            Streams := newStreams, State := ion.StreamEvent_State.ADD }) with
          streams := newStreams }
    else Flow.next st1).All (fun st2 => Core st st2 ∨ Announced st st2) := by
  split
  · split
    · exact Or.inl h
    · rename_i sessionID _
      refine Or.inr ⟨ion.StreamEvent.mk st1.s.sn.NID sessionID (env.peer.ID st1.peer)
        ion.StreamEvent_State.ADD newStreams, rfl, ?_, rfl, ?_⟩
      · show (st1.post env _).posted = _
        rw [post_posted, h.2.1]
      · show (st1.post env _).s.sn = _
        rw [post_sn, h.2.2.1]
  · exact Or.inl h

theorem announceStreams_step (env : Env E) (st : SignalState E)
    (sdp : webrtc.SessionDescription) :
    (announceStreams env st sdp).All (fun st1 => Core st st1 ∨ Announced st st1) := by
  unfold announceStreams
  apply announce_tail
  cases (env.ParseSDP sdp.SDP).2 <;> exact Core.refl st

theorem onDescription_step (env : Env E) (st : SignalState E) (req : pb.SignalRequest)
    (Description : Bytes) :
    (onDescription env st req Description).All (fun st1 => Core st st1 ∨ Announced st st1) := by
  unfold onDescription
  apply andThen_All _ _ (guard_core env st _ _) (fun _ h => Or.inl h)
  intro st1 h1
  simp only []
  split
  · split
    · split
      · exact Flow.All_mono _ (fun _ h => Or.inl (Core.trans h1 h)) (sendErrorFrame_core env _ _)
      · exact Or.inl h1
    · apply andThen_All (Q := Core st)
      · exact Flow.All_mono _ (fun _ h => Core.trans h1 h) (guard_core env _ _ _)
      · exact fun _ h => Or.inl h
      · intro st3 h3
        unfold SignalState.Send
        split
        · rename_i heq
          simp only [Prod.mk.injEq] at heq
          rw [← heq.1]
          exact Or.inl h3
        · rename_i heq
          simp only [Prod.mk.injEq] at heq
          rw [← heq.1]
          refine Flow.All_mono _ ?_ (announceStreams_step env _ _)
          intro st5 h5
          rcases h5 with h5 | ⟨ev, ha, hp, hs, hn⟩
          · exact Or.inl (Core.trans h3 h5)
          · refine Or.inr ⟨ev, ha, ?_, hs, ?_⟩
            · rw [hp]
              exact congrArg (fun l => l ++ [islb.ISLBEvent.Stream ev]) h3.2.1
            · rw [hn]
              exact congrArg sfuServer.sn h3.2.2.1
  · split
    · split
      · split
        · exact Flow.All_mono _ (fun _ h => Or.inl (Core.trans h1 h))
            (sendErrorFrame_core env _ _)
        · exact Or.inl h1
      · exact Or.inl h1
    · exact Or.inl h1

theorem handleFrame_step (env : Env E) (st : SignalState E) (req : pb.SignalRequest) :
    (handleFrame env st req).All (fun st1 => Core st st1 ∨ Announced st st1) := by
  unfold handleFrame
  split
  · exact Flow.All_mono _ (fun _ h => Or.inl h) (onJoin_core env st req _ _ _)
  · exact onDescription_step env st req _
  · exact Flow.All_mono _ (fun _ h => Or.inl h) (onTrickle_core env st _)
  · exact Or.inl (Core.refl st)

theorem lastAddedStreams_append (posted : List islb.ISLBEvent) (ev : ion.StreamEvent)
    (h : ev.State = ion.StreamEvent_State.ADD) :
    lastAddedStreams (posted ++ [islb.ISLBEvent.Stream ev]) = ev.Streams := by
  simp [lastAddedStreams, List.foldl_append, h]

theorem removeEvents_append_add (posted : List islb.ISLBEvent) (ev : ion.StreamEvent)
    (h : ev.State = ion.StreamEvent_State.ADD) :
    removeEvents (posted ++ [islb.ISLBEvent.Stream ev]) = removeEvents posted := by
  simp [removeEvents, List.filterMap_append, h]

theorem LoopInv_step (s : sfuServer) (st st1 : SignalState E) (h : LoopInv s st)
    (hstep : Core st st1 ∨ Announced st st1) : LoopInv s st1 := by
  rcases hstep with hc | ⟨ev, ha, hp, hs, hn⟩
  · refine ⟨?_, ?_, ?_⟩
    · rw [hc.1, hc.2.1]
      exact h.1
    · rw [hc.2.1]
      exact h.2.1
    · rw [hc.2.2.1]
      exact h.2.2
  · refine ⟨?_, ?_, ?_⟩
    · rw [hs, hp, lastAddedStreams_append _ _ ha]
    · rw [hp, removeEvents_append_add _ _ ha]
      exact h.2.1
    · rw [hn]
      exact h.2.2

theorem readAll_inv (env : Env E) (s : sfuServer) (frames : List pb.SignalRequest)
    (st : SignalState E) (h : LoopInv s st) : (readAll env st frames).All (LoopInv s) := by
  induction frames generalizing st with
  | nil => exact h
  | cons req rest ih =>
    unfold readAll
    apply andThen_All _ _ (handleFrame_step env st req)
    · exact fun st1 h1 => LoopInv_step s st st1 h h1
    · exact fun st1 h1 => ih st1 (LoopInv_step s st st1 h h1)

theorem initial_inv (env : Env E) (s : sfuServer) : LoopInv s (initial env s) := by
  simp [LoopInv, initial, lastAddedStreams, removeEvents]

end sfu

namespace sfu

variable {E : Type}

theorem Flow.All_toNext {P : SignalState E → Prop} (f : Flow E) (h : f.All P) : f.Next P := by
  cases f with
  | next st => exact h
  | ret st r => trivial

theorem Flow.Next_mono {P Q : SignalState E → Prop} (f : Flow E) (h : ∀ st, P st → Q st)
    (hf : f.Next P) : f.Next Q := by
  cases f with
  | next st => exact h st hf
  | ret st r => trivial

theorem andThen_Next {P Q : SignalState E → Prop} (f : Flow E) (k : SignalState E → Flow E)
    (hf : f.Next Q) (hk : ∀ st, Q st → (k st).Next P) : (f.andThen k).Next P := by
  cases f with
  | next st => exact hk st hf
  | ret st r => trivial

theorem Keeps_refl (st : SignalState E) : Keeps st st := ⟨rfl, rfl⟩

theorem Keeps_trans {a b c : SignalState E} (h1 : Keeps a b) (h2 : Keeps b c) : Keeps a c :=
  ⟨h2.1.trans h1.1, h2.2.trans h1.2⟩

theorem sendErrorFrame_keeps (env : Env E) (st : SignalState E) (text : String) :
    (sendErrorFrame env st text).All (Keeps st) := by
  unfold sendErrorFrame SignalState.Send
  cases env.Send st.sent { Id := "", Payload := pb.SignalReply_Payload.Error text } <;>
    simp [Flow.All, Keeps, SignalState.logf]

theorem guard_keeps (env : Env E) (st : SignalState E) (err : Option String) (tag : String) :
    (match err with
      | some e => sendErrorFrame env st (tag ++ e)
      | none => Flow.next st).All (Keeps st) := by
  cases err with
  | none => exact Keeps_refl st
  | some e => exact sendErrorFrame_keeps env st _

theorem announce_tail_streams (env : Env E) (st st1 : SignalState E)
    (newStreams : List ion.Stream) (h : st1.streams = st.streams) :
    (if newStreams.length > 0 then
      match env.peer.Session st1.peer with
      | none => Flow.ret st1 Result.nilDereference
      | some sessionID =>
        Flow.next { st1.post env (islb.ISLBEvent.Stream
          { Nid := st1.s.sn.NID, Sid := sessionID, Uid := env.peer.ID st1.peer,
            Streams := newStreams, State := ion.StreamEvent_State.ADD }) with
          streams := newStreams }
    else Flow.next st1).Next
      (fun st2 => st2.streams = if newStreams.length > 0 then newStreams else st.streams) := by
  by_cases hl : newStreams.length > 0
  · simp only [hl, if_true]
    split
    · trivial
    · rfl
  · simp only [hl, if_false]
    exact h

theorem announceStreams_streams (env : Env E) (st : SignalState E)
    (sdp : webrtc.SessionDescription) :
    (announceStreams env st sdp).Next (fun st1 =>
      st1.streams = if (env.ParseSDP sdp.SDP).1.length > 0 then (env.ParseSDP sdp.SDP).1
        else st.streams) := by
  unfold announceStreams
  apply announce_tail_streams
  cases (env.ParseSDP sdp.SDP).2 <;> rfl

theorem onDescription_streams (env : Env E) (st : SignalState E) (req : pb.SignalRequest)
    (d : Bytes) :
    (onDescription env st req d).Next (fun st1 =>
      st1.streams =
        if (if (env.unmarshalSDP d).1.Typ = webrtc.SDPType.offer ∧
              (env.peer.Answer st.peer (env.unmarshalSDP d).1).2.2 = none then
              (env.ParseSDP (env.unmarshalSDP d).1.SDP).1
            else []).length > 0 then
          (if (env.unmarshalSDP d).1.Typ = webrtc.SDPType.offer ∧
              (env.peer.Answer st.peer (env.unmarshalSDP d).1).2.2 = none then
              (env.ParseSDP (env.unmarshalSDP d).1.SDP).1
            else [])
        else st.streams) := by
  unfold onDescription
  apply andThen_Next _ _ (Flow.All_toNext _ (guard_keeps env st _ _))
  intro st1 h1
  simp only []
  by_cases hoff : (env.unmarshalSDP d).1.Typ = webrtc.SDPType.offer
  · rw [if_pos hoff, h1.1]
    cases haerr : (env.peer.Answer st.peer (env.unmarshalSDP d).1).2.2 with
    | some err =>
      have htarget : (if (if (env.unmarshalSDP d).1.Typ = webrtc.SDPType.offer ∧
              (some err : Option isfu.Err) = none then
              (env.ParseSDP (env.unmarshalSDP d).1.SDP).1
            else []).length > 0 then
          (if (env.unmarshalSDP d).1.Typ = webrtc.SDPType.offer ∧
              (some err : Option isfu.Err) = none then
              (env.ParseSDP (env.unmarshalSDP d).1.SDP).1
            else [])
        else st.streams) = st.streams := by simp
      simp only [htarget]
      by_cases hrec : err = isfu.Err.ErrNoTransportEstablished ∨ err = isfu.Err.ErrOfferIgnored
      · rw [if_pos hrec]
        apply Flow.Next_mono _ _ (Flow.All_toNext _ (sendErrorFrame_keeps env _ _))
        intro st2 h2
        exact h2.2.trans h1.2
      · rw [if_neg hrec]
        trivial
    | none =>
      have htarget : (if (if (env.unmarshalSDP d).1.Typ = webrtc.SDPType.offer ∧
              (none : Option isfu.Err) = none then
              (env.ParseSDP (env.unmarshalSDP d).1.SDP).1
            else []).length > 0 then
          (if (env.unmarshalSDP d).1.Typ = webrtc.SDPType.offer ∧
              (none : Option isfu.Err) = none then
              (env.ParseSDP (env.unmarshalSDP d).1.SDP).1
            else [])
        else st.streams)
          = (if (env.ParseSDP (env.unmarshalSDP d).1.SDP).1.length > 0 then
              (env.ParseSDP (env.unmarshalSDP d).1.SDP).1 else st.streams) := by
        simp [hoff]
      simp only [htarget]
      apply andThen_Next (Q := fun st3 => st3.streams = st.streams)
      · apply Flow.Next_mono _ _ (Flow.All_toNext _ (guard_keeps env _ _ _))
        intro st3 h3
        exact h3.2.trans h1.2
      · intro st3 h3
        unfold SignalState.Send
        cases env.Send st3.sent
            { Id := req.Id,
              Payload := pb.SignalReply_Payload.Description
                (env.marshalSDP (env.peer.Answer st.peer (env.unmarshalSDP d).1).2.1).1 } with
        | some se => trivial
        | none =>
          apply Flow.Next_mono _ _ (announceStreams_streams env _ _)
          intro st5 h5
          rw [h5]
          simp [hoff, h3]
  · have htarget : (if (if (env.unmarshalSDP d).1.Typ = webrtc.SDPType.offer ∧
            (env.peer.Answer st.peer (env.unmarshalSDP d).1).2.2 = none then
            (env.ParseSDP (env.unmarshalSDP d).1.SDP).1
          else []).length > 0 then
        (if (env.unmarshalSDP d).1.Typ = webrtc.SDPType.offer ∧
            (env.peer.Answer st.peer (env.unmarshalSDP d).1).2.2 = none then
            (env.ParseSDP (env.unmarshalSDP d).1.SDP).1
          else [])
      else st.streams) = st.streams := by simp [hoff]
    simp only [htarget]
    rw [if_neg hoff]
    by_cases hans : (env.unmarshalSDP d).1.Typ = webrtc.SDPType.answer
    · rw [if_pos hans]
      cases hserr : (env.peer.SetRemoteDescription st1.peer (env.unmarshalSDP d).1).2 with
      | none => exact h1.2
      | some err =>
        by_cases hrec : err = isfu.Err.ErrNoTransportEstablished
        · simp only [hrec, if_true]
          apply Flow.Next_mono _ _ (Flow.All_toNext _ (sendErrorFrame_keeps env _ _))
          intro st2 h2
          exact h2.2.trans h1.2
        · simp only [hrec, if_false]
          trivial
    · rw [if_neg hans]
      exact h1.2

theorem handleFrame_streams (env : Env E) (st st1 : SignalState E) (req : pb.SignalRequest)
    (h : handleFrame env st req = Flow.next st1) :
    st1.streams = if (answeredStreams env st req).length > 0 then answeredStreams env st req
      else st.streams := by
  have hcore : ∀ f : Flow E, f.All (Core st) → f = Flow.next st1 → st1.streams = st.streams := by
    intro f hf he
    subst he
    exact hf.1
  unfold handleFrame at h
  unfold answeredStreams
  cases hp : req.Payload with
  | Join Sid Uid Description =>
    rw [hp] at h
    simp only [List.length_nil, gt_iff_lt, lt_self_iff_false, if_false]
    exact hcore _ (onJoin_core env st req _ _ _) h
  | Description d =>
    rw [hp] at h
    have := onDescription_streams env st req d
    simp only [] at h
    rw [h] at this
    exact this
  | Trickle t =>
    rw [hp] at h
    simp only [List.length_nil, gt_iff_lt, lt_self_iff_false, if_false]
    exact hcore _ (onTrickle_core env st _) h
  | none =>
    rw [hp] at h
    simp only [List.length_nil, gt_iff_lt, lt_self_iff_false, if_false]
    simp only [Flow.next.injEq] at h
    rw [← h]

theorem readAll_streams (env : Env E) (frames : List pb.SignalRequest)
    (st st2 : SignalState E) (h : readAll env st frames = Flow.next st2) :
    st2.streams = (arrivals env st frames).foldl (fun acc a =>
      if (answeredStreams env a.1 a.2).length > 0 then answeredStreams env a.1 a.2 else acc)
      st.streams := by
  induction frames generalizing st with
  | nil =>
    simp only [readAll, Flow.next.injEq] at h
    rw [← h]
    rfl
  | cons req rest ih =>
    unfold readAll at h
    cases hf : handleFrame env st req with
    | ret st1 r =>
      rw [hf] at h
      simp [Flow.andThen] at h
    | next st1 =>
      rw [hf] at h
      simp only [Flow.andThen] at h
      have h1 := handleFrame_streams env st st1 req hf
      have h2 := ih st1 h
      rw [h2, h1]
      simp only [arrivals, hf, List.foldl_cons]

end sfu

namespace sfu

variable {E : Type}

theorem postISLBEvent_cache_witness :
    ((∃ e ∈ exampleServer.sn.neighborNodes,
        e.2.NID = "islb1" ∧ e.2.Service = failingCluster.ServiceISLB) ∧
      rpcCalls (exampleServer.postISLBEvent failingCluster exampleEvent).2
        = [({ nid := "islb1" }, exampleEvent)]) ∧
    ((exampleServer.postISLBEvent failingCluster exampleEvent).1.postISLBEvent failingCluster
        exampleEvent).1 = (exampleServer.postISLBEvent failingCluster exampleEvent).1 :=
  ⟨((postISLBEvent_cache failingCluster exampleServer exampleEvent).1 rfl).1
      { nid := "islb1" } (by decide),
    ((postISLBEvent_cache failingCluster
      (exampleServer.postISLBEvent failingCluster exampleEvent).1 exampleEvent).2
      { nid := "islb1" } (by decide)).1⟩

theorem removeEvents_append_remove (posted : List islb.ISLBEvent) (ev : ion.StreamEvent)
    (h : ev.State = ion.StreamEvent_State.REMOVE) :
    removeEvents (posted ++ [islb.ISLBEvent.Stream ev]) = removeEvents posted ++ [ev] := by
  simp [removeEvents, List.filterMap_append, h]

/-- C5, amended: when the read loop has handled every frame without returning
and `Recv` then fails with end of stream or with status Canceled, `Signal`
returns nil and sends no Error frame while closing.  If the peer then has a
session, exactly one REMOVE event is handed to `postISLBEvent`, as the last
event, with the node id of the server, the id of the session, the id of the
peer and the last known stream set: the streams of the most recent received
`Description` offer that the media engine answered and that announced at least
one stream, which is also the stream set of the most recent ADD event of the
run (empty when there is none).  If the peer has no session, no REMOVE event
is handed over. -/
theorem signal_clean_close (env : Env E) (s : sfuServer) (frames : List pb.SignalRequest)
    (closing : pb.RecvError) (st : SignalState E)
    (hread : readAll env (initial env s) frames = Flow.next st)
    (hclose : closing = pb.RecvError.EOF ∨
      ∃ m, closing = pb.RecvError.status codes.Code.Canceled m) :
    (s.Signal env frames closing).2 = Result.nil ∧
    errorFrames (s.Signal env frames closing).1.sent = errorFrames st.sent ∧
    lastAddedStreams st.posted
      = lastAnsweredStreams env (arrivals env (initial env s) frames) ∧
    (∀ sessionID, env.peer.Session (env.peer.Close st.peer) = some sessionID →
      (s.Signal env frames closing).1.posted
        = st.posted ++ [islb.ISLBEvent.Stream
            (removeEvent env s (env.peer.Close st.peer) sessionID
              (lastAnsweredStreams env (arrivals env (initial env s) frames)))] ∧
      removeEvents (s.Signal env frames closing).1.posted
        = [removeEvent env s (env.peer.Close st.peer) sessionID
            (lastAnsweredStreams env (arrivals env (initial env s) frames))]) ∧
    (env.peer.Session (env.peer.Close st.peer) = none →
      (s.Signal env frames closing).1.posted = st.posted ∧
      removeEvents (s.Signal env frames closing).1.posted = []) := by
  have hinv : LoopInv s st := by
    have := readAll_inv env s frames (initial env s) (initial_inv env s)
    rw [hread] at this
    exact this
  have hstreams : st.streams
      = lastAnsweredStreams env (arrivals env (initial env s) frames) :=
    readAll_streams env frames (initial env s) st hread
  have hbody : signalBody env s frames closing
      = (({ st with peer := env.peer.Close st.peer }).record isfu.Call.Close none,
          Result.nil) := by
    unfold signalBody
    rw [hread]
    rcases hclose with h | ⟨m, h⟩ <;> subst h <;> simp [onRecvError]
  have hsent : (s.Signal env frames closing).1.sent = st.sent := by
    simp only [sfuServer.Signal, hbody, deferred, SignalState.record]
    cases env.peer.Session (env.peer.Close st.peer) <;> rfl
  refine ⟨?_, ?_, ?_, ?_, ?_⟩
  · simp only [sfuServer.Signal, hbody]
  · rw [hsent]
  · rw [← hstreams]
    exact hinv.1.symm
  · intro sessionID hs
    have hpost : (s.Signal env frames closing).1.posted
        = st.posted ++ [islb.ISLBEvent.Stream
            (removeEvent env s (env.peer.Close st.peer) sessionID
              (lastAnsweredStreams env (arrivals env (initial env s) frames)))] := by
      simp only [sfuServer.Signal, hbody, deferred, SignalState.record, hs, post_posted,
        removeEvent]
      rw [← hstreams, hinv.2.2]
    refine ⟨hpost, ?_⟩
    rw [hpost, removeEvents_append_remove _ _ rfl, hinv.2.1]
    rfl
  · intro hs
    have hpost : (s.Signal env frames closing).1.posted = st.posted := by
      simp only [sfuServer.Signal, hbody, deferred, SignalState.record, hs]
    exact ⟨hpost, by rw [hpost]; exact hinv.2.1⟩

end sfu

namespace sfu

variable {E : Type}

theorem signal_clean_close_witness :
    (exampleServer.Signal exampleEnv [joinFrame [3], descriptionFrame [1]] pb.RecvError.EOF).2
      = Result.nil ∧
    removeEvents
        (exampleServer.Signal exampleEnv [joinFrame [3], descriptionFrame [1]]
          pb.RecvError.EOF).1.posted
      = [{ Nid := "sfu1", Sid := "room1", Uid := "u1", State := ion.StreamEvent_State.REMOVE,
           Streams := [{ Id := "A" }] }] :=
  have h := signal_clean_close exampleEnv exampleServer
    [joinFrame [3], descriptionFrame [1]] pb.RecvError.EOF _ rfl (Or.inl rfl)
  ⟨h.1, (h.2.2.2.1 "room1" rfl).2⟩

/-- C5 fails as stated: after a join and an answered offer announcing stream "A",
the engine ignores a later offer announcing stream "B"; on end of stream the
REMOVE event carries stream "A", not the streams of the most recent offer that
announced at least one stream. -/
theorem remove_event_skips_ignored_offer :
    (exampleServer.Signal exampleEnv
      [joinFrame [3], descriptionFrame [1], descriptionFrame [2]] pb.RecvError.EOF).2
      = Result.nil ∧
    removeEvents
        (exampleServer.Signal exampleEnv
          [joinFrame [3], descriptionFrame [1], descriptionFrame [2]]
          pb.RecvError.EOF).1.posted
      = [{ Nid := "sfu1", Sid := "room1", Uid := "u1", State := ion.StreamEvent_State.REMOVE,
           Streams := [{ Id := "A" }] }] ∧
    lastAnnouncedStreams exampleEnv
        [joinFrame [3], descriptionFrame [1], descriptionFrame [2]] = [{ Id := "B" }] ∧
    lastAnsweredStreams exampleEnv
        (arrivals exampleEnv (initial exampleEnv exampleServer)
          [joinFrame [3], descriptionFrame [1], descriptionFrame [2]]) = [{ Id := "A" }] := by
  decide

/-- C6, the code at a failing input: a join whose description does not decode
makes the handler send the Error frame and then go on with the same frame; it
joins the media engine, asks it to answer the empty offer, and returns status
Internal without reading the next frame.  A join that the engine refuses with
`ErrTransportExists` is likewise followed by `Answer` and by a join reply. -/
theorem join_error_falls_through :
    (exampleEnv.unmarshalSDP []).2 = some "unexpected end of JSON input" ∧
    (exampleServer.Signal exampleEnv [joinFrame [], trickleFrame] pb.RecvError.EOF).2
      = Result.status codes.Code.Internal "answer error: invalid offer" [] ∧
    (exampleServer.Signal exampleEnv [joinFrame [], trickleFrame] pb.RecvError.EOF).1.sent
      = [{ Id := "", Payload := pb.SignalReply_Payload.Error
            "join sdp unmarshal error: unexpected end of JSON input" }] ∧
    (exampleServer.Signal exampleEnv [joinFrame [], trickleFrame] pb.RecvError.EOF).1.calls
      = [(isfu.Call.setCallbacks, none), (isfu.Call.Join "room1" "u1", none),
         (isfu.Call.Answer { Typ := webrtc.SDPType.unknown, SDP := "" },
           some (isfu.Err.other "invalid offer"))] ∧
    (exampleServer.Signal exampleEnv [joinFrame [3], joinFrame [3]] pb.RecvError.EOF).1.sent
      = [{ Id := "1", Payload := pb.SignalReply_Payload.Join [9] },
         { Id := "", Payload := pb.SignalReply_Payload.Error
            "join error: rpc transport already exists for this connection" },
         { Id := "1", Payload := pb.SignalReply_Payload.Join [9] }] ∧
    (exampleServer.Signal exampleEnv [joinFrame [3], joinFrame [3]] pb.RecvError.EOF).1.calls
      = [(isfu.Call.setCallbacks, none), (isfu.Call.Join "room1" "u1", none),
         (isfu.Call.Answer { Typ := webrtc.SDPType.offer, SDP := "data-only" }, none),
         (isfu.Call.setCallbacks, none),
         (isfu.Call.Join "room1" "u1", some isfu.Err.ErrTransportExists),
         (isfu.Call.Answer { Typ := webrtc.SDPType.offer, SDP := "data-only" }, none),
         (isfu.Call.Close, none)] := by
  decide

/-- C7: a candidate frame whose candidate decodes, handled in state NEW by an
engine whose `Trickle` returns `ErrNoTransportEstablished`, makes the handler
invoke `Trickle` and nothing else on the engine and send exactly one frame,
the Error frame reporting that error; the remembered streams, the published
events and the server are unchanged and the state is still NEW.  When the send
succeeds the handler does not return and reads the next frame. -/
theorem trickle_before_join (env : Env E) (st : SignalState E) (req : pb.SignalRequest)
    (t : pb.Trickle) (candidate : webrtc.ICECandidateInit) (e1 : E)
    (hreq : req.Payload = pb.SignalRequest_Payload.Trickle t)
    (hnew : st.isNew)
    (hparse : env.unmarshalCandidate t.Init = (candidate, none))
    (htrickle : env.peer.Trickle st.peer candidate t.Target
      = (e1, some isfu.Err.ErrNoTransportEstablished)) :
    (handleFrame env st req).All (fun st1 =>
      st1.sent = st.sent ++ [trickleErrorReply env] ∧
      st1.calls = st.calls
        ++ [(isfu.Call.Trickle candidate t.Target, some isfu.Err.ErrNoTransportEstablished)] ∧
      st1.peer = e1 ∧ Core st st1 ∧ st1.isNew) ∧
    (env.Send st.sent (trickleErrorReply env) = none →
      ∃ st1, handleFrame env st req = Flow.next st1 ∧
        ∀ rest, readAll env st (req :: rest) = readAll env st1 rest) := by
  have hnew1 : ∀ st1 : SignalState E,
      st1.calls = st.calls
        ++ [(isfu.Call.Trickle candidate t.Target, some isfu.Err.ErrNoTransportEstablished)] →
      st1.isNew := by
    intro st1 hc sid uid hmem
    rw [hc] at hmem
    rcases List.mem_append.1 hmem with h | h
    · exact hnew sid uid h
    · simp at h
  have hframe : handleFrame env st req
      = sendErrorFrame env
          ((({ st with peer := e1 }).record (isfu.Call.Trickle candidate t.Target)
            (some isfu.Err.ErrNoTransportEstablished)).logf
              "peer hasn\x27t joined, error -> %v"
              [env.peer.Error isfu.Err.ErrNoTransportEstablished])
          ("trickle error:  " ++ env.peer.Error isfu.Err.ErrNoTransportEstablished) := by
    simp [handleFrame, hreq, onTrickle, hparse, htrickle]
  constructor
  · rw [hframe]
    unfold sendErrorFrame SignalState.Send
    cases env.Send _ _ <;>
      exact ⟨rfl, rfl, rfl, ⟨rfl, rfl, rfl, rfl⟩, hnew1 _ rfl⟩
  · intro hsend
    have hnext : ∃ st1, handleFrame env st req = Flow.next st1 := by
      rw [hframe]
      unfold sendErrorFrame SignalState.Send
      have hs : env.Send
          ((({ st with peer := e1 }).record (isfu.Call.Trickle candidate t.Target)
            (some isfu.Err.ErrNoTransportEstablished)).logf
              "peer hasn\x27t joined, error -> %v"
              [env.peer.Error isfu.Err.ErrNoTransportEstablished]).sent
          { Id := "", Payload := pb.SignalReply_Payload.Error
              ("trickle error:  " ++ env.peer.Error isfu.Err.ErrNoTransportEstablished) }
          = none := hsend
      simp only [hs]
      exact ⟨_, rfl⟩
    obtain ⟨st1, h1⟩ := hnext
    refine ⟨st1, h1, ?_⟩
    intro rest
    simp [readAll, h1, Flow.andThen]

theorem trickle_before_join_witness :
    ∃ st1, handleFrame exampleEnv (initial exampleEnv exampleServer) trickleFrame
        = Flow.next st1 ∧
      ∀ rest, readAll exampleEnv (initial exampleEnv exampleServer) (trickleFrame :: rest)
        = readAll exampleEnv st1 rest :=
  (trickle_before_join exampleEnv (initial exampleEnv exampleServer) trickleFrame
    { Init := "candidate:1", Target := 0 }
    { Candidate := "candidate:1", SDPMid := none, SDPMLineIndex := none,
      UsernameFragment := none }
    none rfl (by intro sid uid h; cases h) (by decide) (by decide)).2 (by decide)

end sfu
